import Mathlib

/-!
Verification development for the resilient log-scanning and aggregation
engine of the OdherApps repository.  Each definition is a shallow
embedding of a function from the TypeScript sources under
`src/server/lib/`; theorems at the end of the file settle the frozen
claims about those functions.

Numeric conventions: JavaScript `number` block counts and chunk sizes are
modelled as `Nat` (they are non-negative integers in every reachable
state; `Math.max(0, x - y)` becomes truncated `Nat` subtraction),
`BigInt` balances as `Int`, and the floating-point division performed
only for display is modelled exactly over `Rat`.
-/

/-! ### String helpers

`String.includes` (JavaScript substring test), `toLowerCase` and the
regex `/(\d+)\s+block\s+range/i` used by `extractMaxBlockRange` in
`src/server/lib/dappActivityScanner.ts`. -/

/-- `pat` occurs at the head of `l` (character-exact). -/
def charsStartWith : List Char → List Char → Bool
  | [], _ => true
  | _ :: _, [] => false
  | p :: ps, c :: cs => p == c && charsStartWith ps cs

/-- `pat` occurs somewhere inside `l`; models JavaScript `includes`. -/
def charsContain (pat : List Char) : List Char → Bool
  | [] => charsStartWith pat []
  | c :: cs => charsStartWith pat (c :: cs) || charsContain pat cs

/-- JavaScript `haystack.includes(needle)`. -/
def strContains (haystack needle : String) : Bool :=
  charsContain needle.data haystack.data

/-- JavaScript `toLowerCase` on the ASCII hex strings used as addresses. -/
def lowerStr (s : String) : String :=
  ⟨s.data.map Char.toLower⟩

/-- Case-insensitive literal match at the head of the input; returns the
remaining characters on success. -/
def stripLiteralCI : List Char → List Char → Option (List Char)
  | [], l => some l
  | _ :: _, [] => none
  | p :: ps, c :: cs => if p.toLower == c.toLower then stripLiteralCI ps cs else none

/-- `\s+`: require at least one whitespace character, then consume the
maximal whitespace run. -/
def stripWhitespace1 : List Char → Option (List Char)
  | [] => none
  | c :: cs => if c.isWhitespace then some (cs.dropWhile Char.isWhitespace) else none

/-- Digit-string to number, most significant digit first. -/
def digitsToNat (ds : List Char) : ℕ :=
  ds.foldl (fun acc c => 10 * acc + (c.toNat - '0'.toNat)) 0

/-- Try to match `(\d+)\s+block\s+range` (case-insensitive) at the head
of the input, returning the parsed digit group. -/
def matchBlockRangeAt (l : List Char) : Option ℕ :=
  let ds := l.takeWhile Char.isDigit
  let rest := l.dropWhile Char.isDigit
  if ds.isEmpty then none
  else
    match stripWhitespace1 rest with
    | none => none
    | some r1 =>
      match stripLiteralCI "block".data r1 with
      | none => none
      | some r2 =>
        match stripWhitespace1 r2 with
        | none => none
        | some r3 =>
          match stripLiteralCI "range".data r3 with
          | none => none
          | some _ => some (digitsToNat ds)

/-- Leftmost match of the regex, trying each start position in turn. -/
def searchBlockRange : List Char → Option ℕ
  | [] => none
  | c :: cs =>
    match matchBlockRangeAt (c :: cs) with
    | some n => some n
    | none => searchBlockRange cs

/-- `extractMaxBlockRange` from `dappActivityScanner.ts`: parse the max
block range out of a provider error message via
`message.match(/(\d+)\s+block\s+range/i)`. -/
def extractMaxBlockRange (errorMessage : String) : Option ℕ :=
  searchBlockRange errorMessage.data

/-- The rate-limit test from the catch block of `scanDAppActivity`:
`errorMsg.includes('429') || errorMsg.includes('compute units') ||
errorMsg.includes('rate limit')`. -/
def isRateLimitMsg (errorMsg : String) : Bool :=
  strContains errorMsg "429" || strContains errorMsg "compute units" ||
    strContains errorMsg "rate limit"

/-! ### Adaptive DApp activity scanner (`src/server/lib/dappActivityScanner.ts`) -/

/-- A raw log as returned by `provider.getLogs`; only the transaction
hash is consumed by later stages of the scanner. -/
structure RawLog where
  transactionHash : String
deriving DecidableEq, Repr

/-- Outcome of one `provider.getLogs` call for a sub-range: either the
matching logs or a thrown error with its message. -/
inductive FetchOutcome where
  | success (logs : List RawLog)
  | failure (message : String)
deriving DecidableEq, Repr

/-- The mutable loop state of `scanDAppActivity` (lines 88-98). -/
structure ScanState where
  currentBlock : ℕ
  chunkSize : ℕ
  minChunkSize : ℕ
  maxChunkSize : ℕ
  allLogs : List RawLog
  consecutiveErrors : ℕ
  rateLimited : Bool
  degradedMode : Bool
deriving DecidableEq, Repr

/-- Initial loop state: cursor at `fromBlock`, `chunkSize = 50`,
`maxChunkSize = 2000`, `minChunkSize = 10`. -/
def initialScanState (fromBlock : ℕ) : ScanState :=
  { currentBlock := fromBlock, chunkSize := 50, minChunkSize := 10,
    maxChunkSize := 2000, allLogs := [], consecutiveErrors := 0,
    rateLimited := false, degradedMode := false }

/-- Result of one iteration of the scan loop: continue with a new state,
or leave the loop (condition false, or explicit `break`). -/
inductive StepOut where
  | next (st : ScanState)
  | stop (st : ScanState)
deriving DecidableEq, Repr

/-- The catch-block paths that run when the error is not a
block-range-limit adjustment (lines 147-171): rate-limit halving,
the five-consecutive-errors abort, and the generic halving retry.
`consecutiveErrors` has already been incremented by the caller. -/
def scanFailureFallback (st : ScanState) (msg : String) : StepOut :=
  if isRateLimitMsg msg then
    StepOut.next
      { st with
        chunkSize := max st.minChunkSize (st.chunkSize / 2)
        rateLimited := true
        degradedMode := true }
  else if 5 ≤ st.consecutiveErrors then
    StepOut.stop { st with degradedMode := true }
  else
    StepOut.next { st with chunkSize := max st.minChunkSize (st.chunkSize / 2) }

/-- One iteration of the `while (currentBlock <= latestBlock)` loop of
`scanDAppActivity` (lines 100-172), driven by the provider behaviour
`fetch` mapping a requested sub-range to its outcome. -/
def scanStep (fetch : ℕ → ℕ → FetchOutcome) (latestBlock : ℕ) (st : ScanState) : StepOut :=
  if latestBlock < st.currentBlock then StepOut.stop st
  else
    let e := min (st.currentBlock + st.chunkSize - 1) latestBlock
    match fetch st.currentBlock e with
    | FetchOutcome.success chunkLogs =>
      let st1 := { st with allLogs := st.allLogs ++ chunkLogs }
      let st2 :=
        if st1.chunkSize < st1.maxChunkSize ∧ st1.consecutiveErrors = 0 then
          { st1 with chunkSize := min (st1.chunkSize * 2) st1.maxChunkSize }
        else st1
      StepOut.next { st2 with consecutiveErrors := 0, currentBlock := e + 1 }
    | FetchOutcome.failure msg =>
      let st1 := { st with consecutiveErrors := st.consecutiveErrors + 1 }
      match extractMaxBlockRange msg with
      | some m =>
        -- `if (maxRange && maxRange < chunkSize)`: 0 is falsy in JS
        if 0 < m ∧ m < st1.chunkSize then
          StepOut.next
            { st1 with
              chunkSize := m
              minChunkSize := m
              maxChunkSize := m
              degradedMode := true }
        else scanFailureFallback st1 msg
      | none => scanFailureFallback st1 msg

/-- The full scan loop, with fuel bounding the number of iterations.
`none` means the supplied fuel ran out before the loop finished. -/
def scanLoop (fetch : ℕ → ℕ → FetchOutcome) (latestBlock : ℕ) :
    ℕ → ScanState → Option ScanState
  | 0, st =>
    match scanStep fetch latestBlock st with
    | StepOut.stop st1 => some st1
    | StepOut.next _ => none
  | fuel + 1, st =>
    match scanStep fetch latestBlock st with
    | StepOut.stop st1 => some st1
    | StepOut.next st1 => scanLoop fetch latestBlock fuel st1

/-- `Math.round((a / b) * 100)` for naturals `a b` with `b > 0`,
evaluated exactly: round-half-up of `100 * a / b`. -/
def jsRoundPct (a b : ℕ) : ℕ :=
  (200 * a + b) / (2 * b)

/-- The coverage report assembled after the loop (lines 174-183 and the
defensive re-check at lines 258-263).  The transaction-detail stage in
between only consumes `allLogs` and does not touch these fields. -/
structure ScanReport where
  totalTxns : ℕ
  scanBlocks : ℕ
  degradedMode : Bool
  rateLimited : Bool
  coveragePercent : ℕ
  scannedBlocks : ℕ
  requestedBlocks : ℕ
deriving DecidableEq, Repr

/-- Lines 174-183 and 258-263 of `scanDAppActivity`: compute
`targetBlocks`, `actualBlocksScanned` and `coveragePercent`, then clear
`degradedMode`/`rateLimited` whenever full coverage was achieved.
`Math.max(0, …)` is truncated `Nat` subtraction here. -/
def finalizeScan (fromBlock latestBlock : ℕ) (st : ScanState) : ScanReport :=
  let targetBlocks := latestBlock - fromBlock + 1
  let actualBlocksScanned := min st.currentBlock (latestBlock + 1) - fromBlock
  let coveragePercent :=
    min 100 (if 0 < targetBlocks then jsRoundPct actualBlocksScanned targetBlocks else 0)
  -- line 180: only keep degradedMode if coverage is actually incomplete
  let degraded1 := if st.degradedMode ∧ 100 ≤ coveragePercent then false else st.degradedMode
  let rate1 := if st.degradedMode ∧ 100 ≤ coveragePercent then false else st.rateLimited
  -- lines 260-263: final defensive clearing at 100% coverage
  let degraded2 := if 100 ≤ coveragePercent then false else degraded1
  let rate2 := if 100 ≤ coveragePercent then false else rate1
  { totalTxns := st.allLogs.length,
    scanBlocks := latestBlock - fromBlock,
    degradedMode := degraded2,
    rateLimited := rate2,
    coveragePercent := coveragePercent,
    scannedBlocks := actualBlocksScanned,
    requestedBlocks := targetBlocks }

/-- `scanDAppActivity` specialised to the coverage-reporting behaviour:
`fromBlock = Math.max(0, latestBlock - scanDepth)`, run the adaptive
loop, then assemble the coverage report. -/
def scanDAppActivity (fetch : ℕ → ℕ → FetchOutcome) (latestBlock scanDepth fuel : ℕ) :
    Option ScanReport :=
  let fromBlock := latestBlock - scanDepth
  (scanLoop fetch latestBlock fuel (initialScanState fromBlock)).map
    (finalizeScan fromBlock latestBlock)

/-! ### Holder ledger aggregator (`src/server/lib/recentHolderScanner.ts`) -/

/-- A raw Transfer log consumed by the holder scanner: the ordered topic
list, and the numeric value carried by `log.data` (the source computes
`BigInt(log.data)` from the hex payload; we carry the parsed value). -/
structure TransferLog where
  topics : List String
  data : ℕ
deriving DecidableEq, Repr

/-- The zero/burn sentinel address compared against in lines 151-156. -/
def zeroAddress : String := "0x0000000000000000000000000000000000000000"

/-- Extraction of an indexed address from a topic (lines 146-147):
`log.topics[i] ? '0x' + log.topics[i].slice(26) : null`.  An absent or
empty topic is falsy and yields `null`. -/
def topicToAddress (topics : List String) (i : ℕ) : Option String :=
  match topics.get? i with
  | some t => if t = "" then none else some ("0x" ++ t.drop 26)
  | none => none

/-- One pass of the delta-accumulation loop body (lines 142-164):
subtract the value from the sender, add it to the receiver, skipping
any endpoint that is null or the zero sentinel.  The balance map is
modelled as a total function defaulting to 0 (`balances.get(..) ||
BigInt(0)`), keyed by lowercased addresses. -/
def applyTransferLog (balances : String → ℤ) (log : TransferLog) : String → ℤ :=
  let fromAddr := topicToAddress log.topics 1
  let toAddr := topicToAddress log.topics 2
  let value : ℤ := (log.data : ℤ)
  let b1 :=
    match fromAddr with
    | some f =>
      if f ≠ zeroAddress then
        Function.update balances (lowerStr f) (balances (lowerStr f) - value)
      else balances
    | none => balances
  match toAddr with
  | some t =>
    if t ≠ zeroAddress then
      Function.update b1 (lowerStr t) (b1 (lowerStr t) + value)
    else b1
  | none => b1

/-- The balance-delta ledger built from the whole scanned log stream. -/
def buildBalances (logs : List TransferLog) : String → ℤ :=
  logs.foldl applyTransferLog (fun _ => 0)

/-- A ranked holder record prior to string formatting (lines 221-233):
address, `BigInt` balance, and display percentage. -/
structure SortedHolder where
  address : String
  balance : ℤ
  percentage : ℚ
deriving DecidableEq, Repr

/-- Percentage of supply (lines 225-227):
`totalSupply > 0 ? Number(balance * 10000n / totalSupply) / 100 : 0`.
`BigInt` division truncates toward zero (`Int.tdiv`); the final
`Number(..) / 100` display step is evaluated exactly over `Rat`. -/
def holderPercentage (balance totalSupply : ℤ) : ℚ :=
  if 0 < totalSupply then ((Int.tdiv (balance * 10000) totalSupply : ℤ) : ℚ) / 100 else 0

/-- Map the `actualBalances` entries (in insertion order) to holder
records with their percentages (lines 221-228). -/
def mkHolderEntries (entries : List (String × ℤ)) (totalSupply : ℤ) : List SortedHolder :=
  entries.map fun e => ⟨e.1, e.2, holderPercentage e.2 totalSupply⟩

/-- The descending-balance order implemented by the comparator at lines
229-233 (returns -1 when `a.balance > b.balance`). -/
def holderGE (a b : SortedHolder) : Prop := b.balance ≤ a.balance

instance : DecidableRel holderGE := fun a b => inferInstanceAs (Decidable (b.balance ≤ a.balance))

instance : IsTotal SortedHolder holderGE := ⟨fun a b => le_total b.balance a.balance⟩

instance : IsTrans SortedHolder holderGE := ⟨fun _ _ _ h1 h2 => le_trans h2 h1⟩

/-- `Array.from(actualBalances.entries()).map(..).sort(..)` — the ranked
holder list (a stable sort by descending balance). -/
def sortedHolders (entries : List (String × ℤ)) (totalSupply : ℤ) : List SortedHolder :=
  List.insertionSort holderGE (mkHolderEntries entries totalSupply)

/-- Accurate-mode per-address balance verification (lines 199-207): query
`balanceOf`, and on any per-address failure fall back to balance 0.  The
oracle `balanceOf` returns `none` exactly when the RPC read throws. -/
def verifyBalanceOf (balanceOf : String → Option ℕ) (addr : String) : String × ℕ :=
  match balanceOf addr with
  | some b => (addr, b)
  | none => (addr, 0)

/-- Accurate-mode batch loop (lines 197-215): process addresses in
batches of `BATCH_SIZE = 50`, keeping only strictly positive verified
balances. -/
def accurateBalances (balanceOf : String → Option ℕ) : List String → List (String × ℕ)
  | [] => []
  | a :: rest =>
    let batch := (a :: rest).take 50
    let results := batch.map (verifyBalanceOf balanceOf)
    results.filter (fun r => 0 < r.2) ++ accurateBalances balanceOf ((a :: rest).drop 50)
termination_by l => l.length
decreasing_by simp [List.length_drop]; omega

/-! ### Transaction type classifier (`src/server/lib/liveTransactionScanner.ts`) -/

/-- A decoded event log; only the event name is consumed by the type
classifier (the decoded `args` record is irrelevant to it). -/
structure DecodedLog where
  eventName : String
deriving DecidableEq, Repr

/-- `determineTransactionType` (lines 148-160): fixed precedence
Swap > Mint > Burn > Approval > Transfer > Other, first match wins. -/
def determineTransactionType (logs : List DecodedLog) : String :=
  if logs.length = 0 then "other"
  else
    let eventNames := logs.map (fun log => log.eventName)
    if eventNames.contains "Swap" then "swap"
    else if eventNames.contains "Mint" then "mint"
    else if eventNames.contains "Burn" then "burn"
    else if eventNames.contains "Approval" then "approve"
    else if eventNames.contains "Transfer" then "transfer"
    else "other"

/-! ### Tax detection (`src/server/lib/enhancedRiskAnalysis.ts`, `detectTradingTax`) -/

/-- The tri-state (plus `TaxKnown`) classification result. -/
inductive TaxState where
  | noTax
  | taxKnown
  | taxZero
  | taxUnknown
deriving DecidableEq, Repr

/-- One entry of the declarative fee-variant table: probed function name
and whether it is a buy fee (`some true`), sell fee (`some false`) or a
total tax used for both (`none`). -/
structure FeeVariant where
  name : String
  isBuy : Option Bool
deriving DecidableEq, Repr

/-- The declarative variant table probed by `detectTradingTax`. -/
def feeVariants : List FeeVariant :=
  [⟨"buyFees", some true⟩, ⟨"buyFee", some true⟩, ⟨"_buyFee", some true⟩,
   ⟨"sellFees", some false⟩, ⟨"sellFee", some false⟩, ⟨"_sellFee", some false⟩,
   ⟨"_taxFee", none⟩, ⟨"taxFee", none⟩, ⟨"_totalTax", none⟩, ⟨"totalFees", none⟩]

/-- Accumulator of the probing loop: first successful buy/sell raw reads
and whether any read succeeded. -/
structure FeeProbeAcc where
  buyFeeRaw : Option ℕ
  sellFeeRaw : Option ℕ
  readSucceeded : Bool
deriving DecidableEq, Repr

/-- The probing loop over the variant table, with per-variant try/catch
(a failed read skips to the next variant) and early exit once both buy
and sell raw fees are known.  `readFee name = none` models a
contract-level read failure (function absent or reverting). -/
def probeFeeVariants (readFee : String → Option ℕ) :
    List FeeVariant → FeeProbeAcc → FeeProbeAcc
  | [], acc => acc
  | v :: rest, acc =>
    match readFee v.name with
    | none => probeFeeVariants readFee rest acc
    | some val =>
      let acc1 := { acc with readSucceeded := true }
      let acc2 :=
        if v.isBuy = some true ∧ acc1.buyFeeRaw = none then
          { acc1 with buyFeeRaw := some val }
        else if v.isBuy = some false ∧ acc1.sellFeeRaw = none then
          { acc1 with sellFeeRaw := some val }
        else if v.isBuy = none ∧ acc1.buyFeeRaw = none ∧ acc1.sellFeeRaw = none then
          { acc1 with buyFeeRaw := some val, sellFeeRaw := some val }
        else acc1
      if acc2.buyFeeRaw.isSome ∧ acc2.sellFeeRaw.isSome then acc2
      else probeFeeVariants readFee rest acc2

/-- `normalizeFee`: magnitude-based scale heuristics, evaluated exactly
over `Rat`. -/
def normalizeFee (raw : Option ℕ) : ℚ :=
  match raw with
  | none => 0
  | some n =>
    if n = 0 then 0
    else if 1000000 ≤ n then (n : ℚ) / 1000000
    else if 10000 < n then (n : ℚ) / 10000
    else if 1000 < n then (n : ℚ) / 100
    else if 100 < n then (n : ℚ) / 100
    else (n : ℚ)

/-- The result record of `detectTradingTax`. -/
structure TaxResult where
  buyTax : ℚ
  sellTax : ℚ
  hasTax : Bool
  state : TaxState
deriving DecidableEq, Repr

/-- The body executed by `executeWithFailover` inside `detectTradingTax`:
probe the variants, normalize, then classify (stage 4 state machine). -/
def detectTradingTaxInner (readFee : String → Option ℕ) : TaxResult :=
  let acc := probeFeeVariants readFee feeVariants ⟨none, none, false⟩
  let buyTax := normalizeFee acc.buyFeeRaw
  let sellTax := normalizeFee acc.sellFeeRaw
  if acc.readSucceeded = false then ⟨0, 0, false, TaxState.noTax⟩
  else if buyTax = 0 ∧ sellTax = 0 then ⟨0, 0, false, TaxState.taxZero⟩
  else ⟨buyTax, sellTax, true, TaxState.taxKnown⟩

/-- `detectTradingTax`: a provider/RPC-level failure (the outer catch,
modelled by `providerCall = none`) yields `TaxUnknown`; otherwise the
inner staged pipeline runs against the contract reads. -/
def detectTradingTax (providerCall : Option (String → Option ℕ)) : TaxResult :=
  match providerCall with
  | some readFee => detectTradingTaxInner readFee
  | none => ⟨0, 0, false, TaxState.taxUnknown⟩

/-! ### Provider pool and failover (`src/server/lib/rpcFailover.ts`) -/

/-- One configured RPC provider (the `RPCProvider` interface). -/
structure RPCProvider where
  url : String
  name : String
  providerPriority : ℤ
  isHealthy : Bool
  lastCheck : ℕ
  failureCount : ℕ
  avgResponseTime : ℚ
deriving DecidableEq, Repr

/-- The providers configured for one chain, in configuration order
(`RPC_CONFIGS[chain].providers`). -/
abbrev PoolState := List RPCProvider

/-- `MAX_FAILURES_BEFORE_UNHEALTHY`. -/
def maxFailuresBeforeUnhealthy : ℕ := 3

/-- Providers with a configured (non-empty) URL:
`config.providers.filter(p => p.url && p.url.length > 0)`. -/
def availableProviders (ps : PoolState) : List RPCProvider :=
  ps.filter (fun p => p.url ≠ "")

/-- Stable minimum by priority: `healthy.sort((a,b) => a.priority -
b.priority)` followed by taking the head keeps the earliest provider
among those of minimal priority, which is what this left fold picks. -/
def pickBestByPriority (h0 : RPCProvider) (hs : List RPCProvider) : RPCProvider :=
  hs.foldl (fun best p => if p.providerPriority < best.providerPriority then p else best) h0

/-- `getBestProvider`: highest-priority healthy configured provider; if
none is healthy, reset every configured provider to healthy with
`failureCount = 0` (mutating the shared pool) and return the first
configured one.  `none` models the thrown error when no provider has a
URL configured.  Returns the chosen URL together with the pool state
after any reset. -/
def getBestProvider (ps : PoolState) : Option (String × PoolState) :=
  match availableProviders ps with
  | [] => none
  | a0 :: _ =>
    match availableProviders ps |>.filter (fun p => p.isHealthy) with
    | [] =>
      let ps1 := ps.map fun p =>
        if p.url ≠ "" then { p with isHealthy := true, failureCount := 0 } else p
      some (a0.url, ps1)
    | h0 :: hs => some ((pickBestByPriority h0 hs).url, ps)

/-- Update the first provider whose URL matches (`providers.find(p =>
p.url === providerUrl)` followed by mutation of the found object); a
missing URL is a no-op. -/
def updateFirstByUrl (url : String) (f : RPCProvider → RPCProvider) :
    PoolState → PoolState
  | [] => []
  | p :: rest =>
    if p.url = url then f p :: rest else p :: updateFirstByUrl url f rest

/-- `reportProviderFailure`: bump `failureCount`, stamp `lastCheck`, and
flip `isHealthy` to false at `MAX_FAILURES_BEFORE_UNHEALTHY`.  The
`setTimeout` recovery scheduled here is modelled by the separate
`cooldownElapse` event below. -/
def reportProviderFailure (ps : PoolState) (providerUrl : String) (now : ℕ) : PoolState :=
  updateFirstByUrl providerUrl
    (fun p =>
      let p1 := { p with failureCount := p.failureCount + 1, lastCheck := now }
      if maxFailuresBeforeUnhealthy ≤ p1.failureCount then
        { p1 with isHealthy := false }
      else p1) ps

/-- The `UNHEALTHY_COOLDOWN` timer firing for a provider: reset to
healthy with `failureCount = 0`. -/
def cooldownElapse (ps : PoolState) (providerUrl : String) : PoolState :=
  updateFirstByUrl providerUrl
    (fun p => { p with isHealthy := true, failureCount := 0 }) ps

/-- `reportProviderSuccess`: decrement `failureCount` (floor 0, which is
truncated `Nat` subtraction), update the exponential moving average of
latency (weights 0.7 old / 0.3 new), stamp `lastCheck`. -/
def reportProviderSuccess (ps : PoolState) (providerUrl : String)
    (responseTime : ℚ) (now : ℕ) : PoolState :=
  updateFirstByUrl providerUrl
    (fun p =>
      { p with
        failureCount := p.failureCount - 1
        avgResponseTime :=
          if p.avgResponseTime = 0 then responseTime
          else p.avgResponseTime * (7 / 10) + responseTime * (3 / 10)
        lastCheck := now }) ps

/-- Outcome of running the wrapped operation on one attempt. -/
inductive AttemptOutcome where
  | ok (latencyMs : ℚ)
  | fail (message : String)
deriving DecidableEq, Repr

/-- Record of one failed attempt inside `executeWithFailover`: the URL
the attempt ran against, the URL the failure was reported against, and
the backoff slept before the next attempt (`none` after the last). -/
structure AttemptRecord where
  usedUrl : String
  reportedUrl : String
  backoffMs : Option ℕ
deriving DecidableEq, Repr

/-- The retry loop of `executeWithFailover` (lines 206-232).  `op` gives
the outcome of the operation on each attempt index; `remaining` is
`maxRetries - attemptCount`.  Returns the terminal result (the final
pool state on success, or the thrown error message) together with one
trace record per failed attempt. -/
def execGo (chainId : String) (op : ℕ → AttemptOutcome) (maxRetries : ℕ) (now : ℕ) :
    ℕ → ℕ → PoolState → Option String → List AttemptRecord →
    Except String PoolState × List AttemptRecord
  | 0, _, _, lastError, trace =>
    (Except.error
      ("RPC failover exhausted for " ++ chainId ++ ": " ++
        lastError.getD "Unknown error"), trace)
  | r + 1, attemptCount, ps, _lastError, trace =>
    match getBestProvider ps with
    | none => (Except.error ("No RPC providers configured for chain: " ++ chainId), trace)
    | some (providerUrl, ps1) =>
      match op attemptCount with
      | AttemptOutcome.ok latency =>
        (Except.ok (reportProviderSuccess ps1 providerUrl latency now), trace)
      | AttemptOutcome.fail msg =>
        let attemptCount1 := attemptCount + 1
        match getBestProvider ps1 with
        | none =>
          (Except.error ("No RPC providers configured for chain: " ++ chainId), trace)
        | some (reportUrl, ps2) =>
          let ps3 := reportProviderFailure ps2 reportUrl now
          let backoff :=
            if attemptCount1 < maxRetries then
              some (min (1000 * 2 ^ attemptCount1) 5000)
            else none
          execGo chainId op maxRetries now r attemptCount1 ps3 (some msg)
            (trace ++ [⟨providerUrl, reportUrl, backoff⟩])

/-- `executeWithFailover` with `maxRetries` attempts (default 3). -/
def executeWithFailover (chainId : String) (op : ℕ → AttemptOutcome)
    (maxRetries : ℕ) (now : ℕ) (ps : PoolState) :
    Except String PoolState × List AttemptRecord :=
  execGo chainId op maxRetries now maxRetries 0 ps none []

/-! ### Theorems -/

/-- **C9.** For every set of decoded events of one transaction, the type
classifier applies the fixed precedence Swap > Mint > Burn > Approval >
Transfer > Other with first match winning, and an empty event set yields
`other`. -/
theorem transactionType_fixed_precedence (logs : List DecodedLog) :
    (logs = [] → determineTransactionType logs = "other") ∧
    ("Swap" ∈ logs.map DecodedLog.eventName → determineTransactionType logs = "swap") ∧
    ("Swap" ∉ logs.map DecodedLog.eventName → "Mint" ∈ logs.map DecodedLog.eventName →
      determineTransactionType logs = "mint") ∧
    ("Swap" ∉ logs.map DecodedLog.eventName → "Mint" ∉ logs.map DecodedLog.eventName →
      "Burn" ∈ logs.map DecodedLog.eventName → determineTransactionType logs = "burn") ∧
    ("Swap" ∉ logs.map DecodedLog.eventName → "Mint" ∉ logs.map DecodedLog.eventName →
      "Burn" ∉ logs.map DecodedLog.eventName → "Approval" ∈ logs.map DecodedLog.eventName →
      determineTransactionType logs = "approve") ∧
    ("Swap" ∉ logs.map DecodedLog.eventName → "Mint" ∉ logs.map DecodedLog.eventName →
      "Burn" ∉ logs.map DecodedLog.eventName → "Approval" ∉ logs.map DecodedLog.eventName →
      "Transfer" ∈ logs.map DecodedLog.eventName →
      determineTransactionType logs = "transfer") ∧
    ("Swap" ∉ logs.map DecodedLog.eventName → "Mint" ∉ logs.map DecodedLog.eventName →
      "Burn" ∉ logs.map DecodedLog.eventName → "Approval" ∉ logs.map DecodedLog.eventName →
      "Transfer" ∉ logs.map DecodedLog.eventName →
      determineTransactionType logs = "other") := by
  refine ⟨?_, ?_, ?_, ?_, ?_, ?_, ?_⟩
  · intro h; subst h; rfl
  all_goals
    intros
    simp only [determineTransactionType]
    split_ifs <;> first
      | rfl
      | (exfalso; simp_all [List.length_eq_zero] <;> tauto)

/-- Witness for `transactionType_fixed_precedence` at a concrete event
set containing both a Transfer and a Swap event. -/
theorem transactionType_fixed_precedence_witness :
    determineTransactionType [⟨"Transfer"⟩, ⟨"Swap"⟩] = "swap" :=
  (transactionType_fixed_precedence [⟨"Transfer"⟩, ⟨"Swap"⟩]).2.1 (by simp)

/-- Batched accurate-mode verification agrees with the unbatched
per-address map-and-filter. -/
theorem accurateBalances_flat (balanceOf : String → Option ℕ) (l : List String) :
    accurateBalances balanceOf l =
      (l.map (verifyBalanceOf balanceOf)).filter (fun r => 0 < r.2) := by
  have H : ∀ n (l : List String), l.length ≤ n →
      accurateBalances balanceOf l =
        (l.map (verifyBalanceOf balanceOf)).filter (fun r => 0 < r.2) := by
    intro n
    induction n with
    | zero =>
      intro l hl
      have : l = [] := List.eq_nil_of_length_eq_zero (Nat.le_zero.mp hl)
      subst this
      simp [accurateBalances]
    | succ n ih =>
      intro l hl
      rcases l with _ | ⟨a, rest⟩
      · simp [accurateBalances]
      · rw [accurateBalances]
        rw [ih ((a :: rest).drop 50)
          (by simp only [List.length_drop, List.length_cons] at hl ⊢; omega)]
        conv_rhs => rw [← List.take_append_drop 50 (a :: rest)]
        rw [List.map_append, List.filter_append]
  exact H l.length l le_rfl

/-- **C10.** In accurate mode, a failed `balanceOf` read for an address
is swallowed: the address is treated as balance 0 and dropped from the
holder records, and partial per-address RPC failure can only shrink the
returned holder set relative to a fully successful run. -/
theorem accurateMode_balance_failure_swallowed
    (bal bal2 : String → Option ℕ) (addrs : List String) (a : String) :
    (bal a = none → a ∉ (accurateBalances bal addrs).map Prod.fst) ∧
    ((∀ x, bal2 x = bal x ∨ bal2 x = none) →
      (accurateBalances bal2 addrs).Sublist (accurateBalances bal addrs)) := by
  constructor
  · intro hfail hmem
    rw [accurateBalances_flat] at hmem
    rcases List.mem_map.mp hmem with ⟨r, hr, hfst⟩
    rcases List.mem_filter.mp hr with ⟨hrm, hrpos⟩
    rcases List.mem_map.mp hrm with ⟨x, _, hx⟩
    subst hx
    have hfstx : (verifyBalanceOf bal x).1 = x := by
      cases h : bal x <;> simp [verifyBalanceOf, h]
    have hxa : x = a := by rw [hfstx] at hfst; exact hfst
    subst hxa
    rw [verifyBalanceOf, hfail] at hrpos
    simp at hrpos
  · intro hdeg
    rw [accurateBalances_flat, accurateBalances_flat]
    induction addrs with
    | nil => simp
    | cons x rest ih =>
      simp only [List.map_cons, List.filter_cons]
      rcases hdeg x with hsame | hnone
      · rw [show verifyBalanceOf bal2 x = verifyBalanceOf bal x by
          simp [verifyBalanceOf, hsame]]
        by_cases hpos : 0 < (verifyBalanceOf bal x).2
        · simpa [hpos] using List.Sublist.cons₂ (verifyBalanceOf bal x) ih
        · simpa [hpos] using ih
      · have h0 : (verifyBalanceOf bal2 x).2 = 0 := by simp [verifyBalanceOf, hnone]
        by_cases hpos : 0 < (verifyBalanceOf bal x).2
        · simpa [h0, hpos] using List.Sublist.cons (verifyBalanceOf bal x) ih
        · simpa [h0, hpos] using ih

/-- Witness for `accurateMode_balance_failure_swallowed`: address `x`
fails its read and is dropped; the degraded run is a sublist of the
healthy one. -/
theorem accurateMode_balance_failure_swallowed_witness :
    "x" ∉ (accurateBalances (fun a => if a = "x" then none else some 5)
      ["x", "y", "z"]).map Prod.fst ∧
    (accurateBalances (fun a => if a = "x" then none else some 5)
      ["x", "y", "z"]).Sublist (accurateBalances (fun _ => some 5) ["x", "y", "z"]) :=
  ⟨(accurateMode_balance_failure_swallowed
      (fun a => if a = "x" then none else some 5)
      (fun a => if a = "x" then none else some 5) ["x", "y", "z"] "x").1 (by simp),
   (accurateMode_balance_failure_swallowed
      (fun _ => some 5)
      (fun a => if a = "x" then none else some 5) ["x", "y", "z"] "x").2
      (by intro v; by_cases h : v = "x" <;> simp [h])⟩

/-- Probing with an oracle that fails on every variant in the list
leaves the accumulator unchanged. -/
theorem probeFeeVariants_all_fail (readFee : String → Option ℕ) :
    ∀ (l : List FeeVariant) (acc : FeeProbeAcc),
      (∀ v ∈ l, readFee v.name = none) → probeFeeVariants readFee l acc = acc := by
  intro l
  induction l with
  | nil => intro acc _; rfl
  | cons v rest ih =>
    intro acc hall
    have hv : readFee v.name = none := hall v (List.mem_cons_self v rest)
    rw [probeFeeVariants, hv]
    exact ih acc fun w hw => hall w (List.mem_cons_of_mem v hw)

/-- If the probing loop reports a successful read, either the
accumulator already recorded one or some variant in the list reads
successfully. -/
theorem probeFeeVariants_readSucceeded (readFee : String → Option ℕ) :
    ∀ (l : List FeeVariant) (acc : FeeProbeAcc),
      (probeFeeVariants readFee l acc).readSucceeded = true →
      acc.readSucceeded = true ∨ ∃ v ∈ l, (readFee v.name).isSome := by
  intro l
  induction l with
  | nil => intro acc h; exact Or.inl h
  | cons v rest ih =>
    intro acc h
    rw [probeFeeVariants] at h
    cases hv : readFee v.name with
    | none =>
      rw [hv] at h
      rcases ih acc h with h1 | ⟨w, hw, hws⟩
      · exact Or.inl h1
      · exact Or.inr ⟨w, List.mem_cons_of_mem v hw, hws⟩
    | some val =>
      exact Or.inr ⟨v, List.mem_cons_self v rest, by rw [hv]; rfl⟩

/-- The inner staged pipeline can only classify as `NoTax`, `TaxZero` or
`TaxKnown`; `TaxUnknown` arises solely from the outer provider catch. -/
theorem detectTradingTaxInner_ne_unknown (readFee : String → Option ℕ) :
    (detectTradingTaxInner readFee).state ≠ TaxState.taxUnknown := by
  rw [detectTradingTaxInner]
  split_ifs <;> simp

/-- **C8.** Tax detection is a deterministic tri-state classification:
if every probed fee-function read fails at the contract level while the
provider works, the result is `NoTax`; `TaxZero` is returned only when
at least one read succeeded and both normalized fee values are zero;
`TaxUnknown` is returned exactly when the provider-level call fails. -/
theorem taxDetection_tristate
    (readFee : String → Option ℕ) (providerCall : Option (String → Option ℕ)) :
    ((∀ v ∈ feeVariants, readFee v.name = none) →
      (detectTradingTax (some readFee)).state = TaxState.noTax) ∧
    ((detectTradingTax (some readFee)).state = TaxState.taxZero →
      (∃ v ∈ feeVariants, (readFee v.name).isSome) ∧
      normalizeFee (probeFeeVariants readFee feeVariants ⟨none, none, false⟩).buyFeeRaw = 0 ∧
      normalizeFee (probeFeeVariants readFee feeVariants ⟨none, none, false⟩).sellFeeRaw = 0) ∧
    ((detectTradingTax providerCall).state = TaxState.taxUnknown ↔ providerCall = none) := by
  refine ⟨?_, ?_, ?_⟩
  · intro hall
    show (detectTradingTaxInner readFee).state = TaxState.noTax
    rw [detectTradingTaxInner, probeFeeVariants_all_fail readFee feeVariants _ hall]
    rfl
  · intro hzero
    rw [show detectTradingTax (some readFee) = detectTradingTaxInner readFee from rfl,
      detectTradingTaxInner] at hzero
    split_ifs at hzero with h1 h2
    refine ⟨?_, h2.1, h2.2⟩
    have hs : (probeFeeVariants readFee feeVariants ⟨none, none, false⟩).readSucceeded = true := by
      revert h1; cases (probeFeeVariants readFee feeVariants ⟨none, none, false⟩).readSucceeded <;> simp
    rcases probeFeeVariants_readSucceeded readFee feeVariants _ hs with h | h
    · simp at h
    · exact h
  · cases providerCall with
    | none => simp [detectTradingTax]
    | some rf =>
      constructor
      · intro h
        exact absurd h (detectTradingTaxInner_ne_unknown rf)
      · intro h; cases h

/-- Witness for `taxDetection_tristate`: an oracle with every read
failing yields `NoTax`; a sell-fee read of zero yields `TaxZero`; a
provider-level failure yields `TaxUnknown`. -/
theorem taxDetection_tristate_witness :
    (detectTradingTax (some (fun _ => none))).state = TaxState.noTax ∧
    ((∃ v ∈ feeVariants,
        ((fun n => if n = "sellFee" then some 0 else none : String → Option ℕ) v.name).isSome) ∧
      normalizeFee (probeFeeVariants (fun n => if n = "sellFee" then some 0 else none)
        feeVariants ⟨none, none, false⟩).buyFeeRaw = 0 ∧
      normalizeFee (probeFeeVariants (fun n => if n = "sellFee" then some 0 else none)
        feeVariants ⟨none, none, false⟩).sellFeeRaw = 0) ∧
    ((detectTradingTax (none : Option (String → Option ℕ))).state = TaxState.taxUnknown ↔
      (none : Option (String → Option ℕ)) = none) :=
  ⟨(taxDetection_tristate (fun _ => none) none).1 (fun _ _ => rfl),
   (taxDetection_tristate (fun n => if n = "sellFee" then some 0 else none) none).2.1
     (by decide),
   (taxDetection_tristate (fun _ => none) none).2.2⟩

/-- Summing a point update that adds `c` at a member of `S` adds `c` to
the total. -/
theorem sum_update_add (S : Finset String) (g : String → ℤ) (k : String)
    (hk : k ∈ S) (c : ℤ) :
    (∑ a in S, Function.update g k (g k + c) a) = (∑ a in S, g a) + c := by
  rw [Finset.sum_update_of_mem hk]
  rw [Finset.sdiff_singleton_eq_erase]
  have h2 := Finset.add_sum_erase S g hk
  omega

/-- Applying one transfer whose endpoints are both non-sentinel and
both lie (lowercased) in `S` preserves the total balance over `S`. -/
theorem applyTransferLog_sum (S : Finset String) (b : String → ℤ) (log : TransferLog)
    (f t : String)
    (hf : topicToAddress log.topics 1 = some f) (hfz : f ≠ zeroAddress)
    (hfS : lowerStr f ∈ S)
    (ht : topicToAddress log.topics 2 = some t) (htz : t ≠ zeroAddress)
    (htS : lowerStr t ∈ S) :
    (∑ a in S, applyTransferLog b log a) = ∑ a in S, b a := by
  have hb1 : applyTransferLog b log =
      Function.update (Function.update b (lowerStr f) (b (lowerStr f) - (log.data : ℤ)))
        (lowerStr t)
        (Function.update b (lowerStr f) (b (lowerStr f) - (log.data : ℤ)) (lowerStr t)
          + (log.data : ℤ)) := by
    rw [applyTransferLog]
    simp only [hf, ht, if_pos hfz, if_pos htz]
  rw [hb1]
  have h2 := sum_update_add S
    (Function.update b (lowerStr f) (b (lowerStr f) - (log.data : ℤ))) (lowerStr t) htS
    (log.data : ℤ)
  have h1 : (∑ a in S,
      Function.update b (lowerStr f) (b (lowerStr f) - (log.data : ℤ)) a) =
      (∑ a in S, b a) - (log.data : ℤ) := by
    have := sum_update_add S b (lowerStr f) hfS (-(log.data : ℤ))
    rw [show b (lowerStr f) + -(log.data : ℤ) = b (lowerStr f) - (log.data : ℤ) by ring] at this
    omega
  omega

/-- Folding the delta-accumulation over a log stream whose transfers all
stay inside `S` and never touch the sentinel preserves the total. -/
theorem foldl_applyTransferLog_sum (S : Finset String) :
    ∀ (logs : List TransferLog) (b : String → ℤ),
      (∀ log ∈ logs, ∃ f, topicToAddress log.topics 1 = some f ∧
        f ≠ zeroAddress ∧ lowerStr f ∈ S) →
      (∀ log ∈ logs, ∃ t, topicToAddress log.topics 2 = some t ∧
        t ≠ zeroAddress ∧ lowerStr t ∈ S) →
      (∑ a in S, (logs.foldl applyTransferLog b) a) = ∑ a in S, b a := by
  intro logs
  induction logs with
  | nil => intro b _ _; rfl
  | cons log rest ih =>
    intro b hf ht
    rcases hf log (List.mem_cons_self log rest) with ⟨f, hf1, hf2, hf3⟩
    rcases ht log (List.mem_cons_self log rest) with ⟨t, ht1, ht2, ht3⟩
    rw [List.foldl_cons,
      ih (applyTransferLog b log)
        (fun l hl => hf l (List.mem_cons_of_mem log hl))
        (fun l hl => ht l (List.mem_cons_of_mem log hl))]
    exact applyTransferLog_sum S b log f t hf1 hf2 hf3 ht1 ht2 ht3

/-- **C2.** For every decoded Transfer set in which neither endpoint is
the zero address, the balance-delta ledger sums to exactly zero over any
address set covering the (lowercased) endpoints; zero-address sentinel
transfers update only the non-zero side. -/
theorem holderLedger_closed_system (logs : List TransferLog) (S : Finset String)
    (hfrom : ∀ log ∈ logs, ∃ f, topicToAddress log.topics 1 = some f ∧
      f ≠ zeroAddress ∧ lowerStr f ∈ S)
    (hto : ∀ log ∈ logs, ∃ t, topicToAddress log.topics 2 = some t ∧
      t ≠ zeroAddress ∧ lowerStr t ∈ S) :
    (∑ a in S, buildBalances logs a = 0) ∧
    (∀ (b : String → ℤ) (log : TransferLog) (t : String),
      topicToAddress log.topics 1 = some zeroAddress →
      topicToAddress log.topics 2 = some t → t ≠ zeroAddress →
      applyTransferLog b log =
        Function.update b (lowerStr t) (b (lowerStr t) + (log.data : ℤ))) ∧
    (∀ (b : String → ℤ) (log : TransferLog) (f : String),
      topicToAddress log.topics 1 = some f → f ≠ zeroAddress →
      topicToAddress log.topics 2 = some zeroAddress →
      applyTransferLog b log =
        Function.update b (lowerStr f) (b (lowerStr f) - (log.data : ℤ))) := by
  refine ⟨?_, ?_, ?_⟩
  · rw [buildBalances, foldl_applyTransferLog_sum S logs _ hfrom hto]
    simp
  · intro b log t h1 h2 h3
    rw [applyTransferLog]
    simp only [h1, h2, if_pos h3]
    simp
  · intro b log f h1 h2 h3
    rw [applyTransferLog]
    simp only [h1, h3, if_pos h2]
    simp

set_option maxRecDepth 4000 in
/-- Witness for `holderLedger_closed_system`: one transfer of 5 tokens
from `0xaaaa` to `0xbbbb` (topics carry the addresses in their low
bytes); the deltas over both addresses sum to zero. -/
theorem holderLedger_closed_system_witness :
    (∑ a in ({"0xaaaa", "0xbbbb"} : Finset String),
      buildBalances [⟨["t0", "zzzzzzzzzzzzzzzzzzzzzzzzzzaaaa",
        "zzzzzzzzzzzzzzzzzzzzzzzzzzbbbb"], 5⟩] a = 0) ∧
    (∀ (b : String → ℤ) (log : TransferLog) (t : String),
      topicToAddress log.topics 1 = some zeroAddress →
      topicToAddress log.topics 2 = some t → t ≠ zeroAddress →
      applyTransferLog b log =
        Function.update b (lowerStr t) (b (lowerStr t) + (log.data : ℤ))) ∧
    (∀ (b : String → ℤ) (log : TransferLog) (f : String),
      topicToAddress log.topics 1 = some f → f ≠ zeroAddress →
      topicToAddress log.topics 2 = some zeroAddress →
      applyTransferLog b log =
        Function.update b (lowerStr f) (b (lowerStr f) - (log.data : ℤ))) :=
  holderLedger_closed_system
    [⟨["t0", "zzzzzzzzzzzzzzzzzzzzzzzzzzaaaa", "zzzzzzzzzzzzzzzzzzzzzzzzzzbbbb"], 5⟩]
    {"0xaaaa", "0xbbbb"}
    (by
      intro log hlog
      have hl : log = ⟨["t0", "zzzzzzzzzzzzzzzzzzzzzzzzzzaaaa",
          "zzzzzzzzzzzzzzzzzzzzzzzzzzbbbb"], 5⟩ := by simpa using hlog
      subst hl
      exact ⟨"0xaaaa", by decide, by decide, by decide⟩)
    (by
      intro log hlog
      have hl : log = ⟨["t0", "zzzzzzzzzzzzzzzzzzzzzzzzzzaaaa",
          "zzzzzzzzzzzzzzzzzzzzzzzzzzbbbb"], 5⟩ := by simpa using hlog
      subst hl
      exact ⟨"0xbbbb", by decide, by decide, by decide⟩)

/-- Basis-point sum bound: the truncated integer basis points of each
balance, summed and scaled back by the supply, never exceed 10000 times
the summed balances. -/
theorem sum_basisPoints_le (totalSupply : ℤ) (hsupply : 0 < totalSupply) :
    ∀ entries : List (String × ℤ), (∀ e ∈ entries, 0 ≤ e.2) →
      totalSupply * (entries.map (fun e => Int.tdiv (e.2 * 10000) totalSupply)).sum ≤
        10000 * (entries.map Prod.snd).sum := by
  intro entries
  induction entries with
  | nil => simp
  | cons e rest ih =>
    intro hpos
    have he : 0 ≤ e.2 := hpos e (List.mem_cons_self e rest)
    have htd : (e.2 * 10000).tdiv totalSupply = (e.2 * 10000) / totalSupply := by
      rw [Int.tdiv_eq_ediv] <;> omega
    have h1 : totalSupply * Int.tdiv (e.2 * 10000) totalSupply ≤ 10000 * e.2 := by
      rw [htd, mul_comm totalSupply]
      have hm := Int.ediv_mul_le (e.2 * 10000) (show totalSupply ≠ 0 by omega)
      linarith
    have h2 := ih fun x hx => hpos x (List.mem_cons_of_mem e hx)
    rw [List.map_cons, List.sum_cons, List.map_cons, List.sum_cons, mul_add, mul_add]
    exact add_le_add h1 h2

/-- The percentage list of the holder entries is the cast basis-point
sum divided by 100, when the supply is positive. -/
theorem mkHolderEntries_pct_sum (totalSupply : ℤ) (hsupply : 0 < totalSupply)
    (entries : List (String × ℤ)) :
    ((mkHolderEntries entries totalSupply).map SortedHolder.percentage).sum =
      (((entries.map (fun e => Int.tdiv (e.2 * 10000) totalSupply)).sum : ℤ) : ℚ) / 100 := by
  induction entries with
  | nil => simp [mkHolderEntries]
  | cons e rest ih =>
    simp only [mkHolderEntries, List.map_cons, List.sum_cons] at *
    rw [ih]
    rw [holderPercentage, if_pos hsupply]
    push_cast
    ring

/-- **C3.** Holder results are ranked so a strictly larger balance never
appears below a smaller one, each percentage is the integer
multiply-before-divide basis-point value divided by 100 for display, and
under chain-consistent inputs (positive balances summing to at most the
total supply) the percentages sum to at most 100. -/
theorem holderRanking_monotone_and_bounded
    (entries : List (String × ℤ)) (totalSupply : ℤ)
    (hpos : ∀ e ∈ entries, 0 < e.2) (hsupply : 0 < totalSupply)
    (hsum : (entries.map Prod.snd).sum ≤ totalSupply) :
    (sortedHolders entries totalSupply).Pairwise holderGE ∧
    (∀ h ∈ sortedHolders entries totalSupply,
      h.percentage = ((Int.tdiv (h.balance * 10000) totalSupply : ℤ) : ℚ) / 100) ∧
    ((sortedHolders entries totalSupply).map SortedHolder.percentage).sum ≤ 100 := by
  refine ⟨List.sorted_insertionSort holderGE (mkHolderEntries entries totalSupply), ?_, ?_⟩
  · intro h hmem
    have hmem2 : h ∈ mkHolderEntries entries totalSupply :=
      (List.perm_insertionSort holderGE (mkHolderEntries entries totalSupply)).subset hmem
    rcases List.mem_map.mp hmem2 with ⟨e, _, he⟩
    subst he
    rw [holderPercentage, if_pos hsupply]
  · have hperm : ((sortedHolders entries totalSupply).map SortedHolder.percentage).sum =
        ((mkHolderEntries entries totalSupply).map SortedHolder.percentage).sum :=
      List.Perm.sum_eq (List.Perm.map SortedHolder.percentage
        (List.perm_insertionSort holderGE (mkHolderEntries entries totalSupply)))
    rw [hperm, mkHolderEntries_pct_sum totalSupply hsupply entries]
    have hA := sum_basisPoints_le totalSupply hsupply entries
      (fun e he => le_of_lt (hpos e he))
    have hB : 10000 * (entries.map Prod.snd).sum ≤ 10000 * totalSupply :=
      mul_le_mul_of_nonneg_left hsum (by norm_num)
    have hq : (entries.map (fun e => Int.tdiv (e.2 * 10000) totalSupply)).sum ≤ 10000 := by
      have := le_trans hA hB
      have h10 : totalSupply * (entries.map
          (fun e => Int.tdiv (e.2 * 10000) totalSupply)).sum ≤ totalSupply * 10000 := by
        omega
      exact le_of_mul_le_mul_left h10 hsupply
    rw [div_le_iff₀ (by norm_num : (0 : ℚ) < 100)]
    have : (((entries.map (fun e => Int.tdiv (e.2 * 10000) totalSupply)).sum : ℤ) : ℚ) ≤
        ((10000 : ℤ) : ℚ) := Int.cast_le.mpr hq
    push_cast at this ⊢
    linarith

/-- Witness for `holderRanking_monotone_and_bounded` on two holders with
balances 100 and 50 out of a supply of 200. -/
theorem holderRanking_monotone_and_bounded_witness :
    (sortedHolders [("a", 50), ("b", 100)] 200).Pairwise holderGE ∧
    (∀ h ∈ sortedHolders [("a", 50), ("b", 100)] 200,
      h.percentage = ((Int.tdiv (h.balance * 10000) 200 : ℤ) : ℚ) / 100) ∧
    ((sortedHolders [("a", 50), ("b", 100)] 200).map SortedHolder.percentage).sum ≤ 100 :=
  holderRanking_monotone_and_bounded [("a", 50), ("b", 100)] 200
    (by intro e he; simp only [List.mem_cons, List.mem_singleton] at he
        rcases he with h | h | h <;> first | (rw [h]; norm_num) | simp_all)
    (by norm_num) (by simp)

/-- **C5.** Starting from chunk size 2000, three consecutive rate-limit
errors halve the chunk size to 1000, 500 and 250 (each halving clamped
at the configured floor), and the cursor does not advance on any failed
request. -/
theorem rateLimit_halves_chunkSize
    (st : ScanState) (latestBlock : ℕ) (msg : String) (fetch : ℕ → ℕ → FetchOutcome)
    (hcur : st.currentBlock ≤ latestBlock)
    (hfetch : ∀ c e, fetch c e = FetchOutcome.failure msg)
    (hextract : extractMaxBlockRange msg = none)
    (hrate : isRateLimitMsg msg = true)
    (hchunk : st.chunkSize = 2000)
    (hmin : st.minChunkSize ≤ 250) :
    ∃ st1 st2 st3,
      scanStep fetch latestBlock st = StepOut.next st1 ∧
      scanStep fetch latestBlock st1 = StepOut.next st2 ∧
      scanStep fetch latestBlock st2 = StepOut.next st3 ∧
      st1.chunkSize = max st.minChunkSize (st.chunkSize / 2) ∧
      st1.chunkSize = 1000 ∧ st2.chunkSize = 500 ∧ st3.chunkSize = 250 ∧
      st1.currentBlock = st.currentBlock ∧ st2.currentBlock = st.currentBlock ∧
      st3.currentBlock = st.currentBlock ∧
      st1.rateLimited = true ∧ st2.rateLimited = true ∧ st3.rateLimited = true := by
  have hstep : ∀ s : ScanState, s.currentBlock ≤ latestBlock →
      scanStep fetch latestBlock s = StepOut.next
        { s with
          consecutiveErrors := s.consecutiveErrors + 1
          chunkSize := max s.minChunkSize (s.chunkSize / 2)
          rateLimited := true
          degradedMode := true } := by
    intro s hs
    rw [scanStep, if_neg (by omega)]
    simp only [hfetch, hextract]
    rw [scanFailureFallback, if_pos hrate]
  refine ⟨_, _, _, hstep st hcur, hstep _ (by simpa using hcur), hstep _ (by simpa using hcur),
    ?_, ?_, ?_, ?_, ?_, ?_, ?_, ?_, ?_, ?_⟩ <;>
    simp [hchunk] <;> omega

set_option maxRecDepth 4000 in
/-- Witness for `rateLimit_halves_chunkSize`: a provider answering every
request with a plain rate-limit error, scanned from block 0 of 100 with
seed chunk 2000 and floor 10. -/
theorem rateLimit_halves_chunkSize_witness :
    ∃ st1 st2 st3,
      scanStep (fun _ _ => FetchOutcome.failure "rate limit") 100
        ⟨0, 2000, 10, 2000, [], 0, false, false⟩ = StepOut.next st1 ∧
      scanStep (fun _ _ => FetchOutcome.failure "rate limit") 100 st1 = StepOut.next st2 ∧
      scanStep (fun _ _ => FetchOutcome.failure "rate limit") 100 st2 = StepOut.next st3 ∧
      st1.chunkSize = max (ScanState.minChunkSize ⟨0, 2000, 10, 2000, [], 0, false, false⟩)
        (ScanState.chunkSize ⟨0, 2000, 10, 2000, [], 0, false, false⟩ / 2) ∧
      st1.chunkSize = 1000 ∧ st2.chunkSize = 500 ∧ st3.chunkSize = 250 ∧
      st1.currentBlock = 0 ∧ st2.currentBlock = 0 ∧ st3.currentBlock = 0 ∧
      st1.rateLimited = true ∧ st2.rateLimited = true ∧ st3.rateLimited = true :=
  rateLimit_halves_chunkSize ⟨0, 2000, 10, 2000, [], 0, false, false⟩ 100 "rate limit"
    (fun _ _ => FetchOutcome.failure "rate limit")
    (by decide) (fun _ _ => rfl) (by decide) (by decide) rfl (by decide)

set_option maxRecDepth 8000 in
/-- **C4.** A chunk-fetch failure whose message reports a numeric block
range limit smaller than the current chunk size pins the chunk size
(min = max = limit) and leaves the cursor in place; and a scan against a
provider that always returns a "10 block range" error converges to
chunk size 10 and completes with full coverage, reported as
degraded=false and rateLimited=false. -/
theorem blockRange_pin_and_converge
    (st : ScanState) (latestBlock m : ℕ) (msg : String) (fetch : ℕ → ℕ → FetchOutcome)
    (hcur : st.currentBlock ≤ latestBlock)
    (hfetch : fetch st.currentBlock (min (st.currentBlock + st.chunkSize - 1) latestBlock) =
      FetchOutcome.failure msg)
    (hm : extractMaxBlockRange msg = some m) (hm0 : 0 < m) (hlt : m < st.chunkSize) :
    (∃ st1, scanStep fetch latestBlock st = StepOut.next st1 ∧
      st1.chunkSize = m ∧ st1.minChunkSize = m ∧ st1.maxChunkSize = m ∧
      st1.currentBlock = st.currentBlock ∧ st1.degradedMode = true) ∧
    ((scanLoop (fun c e => if 10 < e + 1 - c then
        FetchOutcome.failure "query exceeded max of 10 block range"
      else FetchOutcome.success []) 1000 20 (initialScanState 900)).map ScanState.chunkSize =
      some 10) ∧
    (scanDAppActivity (fun c e => if 10 < e + 1 - c then
        FetchOutcome.failure "query exceeded max of 10 block range"
      else FetchOutcome.success []) 1000 100 20 =
      some ⟨0, 100, false, false, 100, 101, 101⟩) := by
  refine ⟨?_, by decide, by decide⟩
  rw [scanStep, if_neg (by omega)]
  simp only [hfetch, hm]
  rw [if_pos (by exact ⟨hm0, hlt⟩)]
  exact ⟨_, rfl, rfl, rfl, rfl, rfl, rfl⟩

set_option maxRecDepth 8000 in
/-- Witness for `blockRange_pin_and_converge`: the first request of the
ten-block-limited scan (blocks 900-949, chunk 50) fails with the "10
block range" message and pins the chunk size to 10. -/
theorem blockRange_pin_and_converge_witness :
    (∃ st1, scanStep (fun c e => if 10 < e + 1 - c then
        FetchOutcome.failure "query exceeded max of 10 block range"
      else FetchOutcome.success []) 1000 (initialScanState 900) = StepOut.next st1 ∧
      st1.chunkSize = 10 ∧ st1.minChunkSize = 10 ∧ st1.maxChunkSize = 10 ∧
      st1.currentBlock = (initialScanState 900).currentBlock ∧ st1.degradedMode = true) ∧
    ((scanLoop (fun c e => if 10 < e + 1 - c then
        FetchOutcome.failure "query exceeded max of 10 block range"
      else FetchOutcome.success []) 1000 20 (initialScanState 900)).map ScanState.chunkSize =
      some 10) ∧
    (scanDAppActivity (fun c e => if 10 < e + 1 - c then
        FetchOutcome.failure "query exceeded max of 10 block range"
      else FetchOutcome.success []) 1000 100 20 =
      some ⟨0, 100, false, false, 100, 101, 101⟩) :=
  blockRange_pin_and_converge (initialScanState 900) 1000 10
    "query exceeded max of 10 block range"
    (fun c e => if 10 < e + 1 - c then
      FetchOutcome.failure "query exceeded max of 10 block range"
    else FetchOutcome.success [])
    (by decide) (by decide) (by decide) (by decide) (by decide)

/-- Rounded coverage of a fully scanned range is exactly 100. -/
theorem jsRoundPct_self (t : ℕ) (ht : 0 < t) : jsRoundPct t t = 100 := by
  rw [jsRoundPct, show 200 * t + t = 2 * t * 100 + t by ring,
    Nat.mul_add_div (by omega), Nat.div_eq_of_lt (by omega)]

/-- The scan loop leaves either because the cursor passed the last
block, or through the consecutive-error break, which marks the state
degraded. -/
theorem scanStep_stop_cases (fetch : ℕ → ℕ → FetchOutcome) (latestBlock : ℕ)
    (st st1 : ScanState) (h : scanStep fetch latestBlock st = StepOut.stop st1) :
    latestBlock < st1.currentBlock ∨ st1.degradedMode = true := by
  rw [scanStep] at h
  by_cases hc : latestBlock < st.currentBlock
  · rw [if_pos hc] at h
    cases h
    exact Or.inl hc
  · rw [if_neg hc] at h
    cases hf : fetch st.currentBlock (min (st.currentBlock + st.chunkSize - 1) latestBlock) with
    | success logs =>
      simp only [hf] at h
      exact StepOut.noConfusion h
    | failure msg =>
      simp only [hf] at h
      have hfall : ∀ s : ScanState,
          scanFailureFallback s msg = StepOut.stop st1 → st1.degradedMode = true := by
        intro s hs
        rw [scanFailureFallback] at hs
        split_ifs at hs
        cases hs
        rfl
      cases hm : extractMaxBlockRange msg with
      | some m =>
        simp only [hm] at h
        split_ifs at h
        exact Or.inr (hfall _ h)
      | none =>
        simp only [hm] at h
        exact Or.inr (hfall _ h)

/-- Every state in which the scan loop terminates satisfies the
disjunction of `scanStep_stop_cases`. -/
theorem scanLoop_stop_cases (fetch : ℕ → ℕ → FetchOutcome) (latestBlock : ℕ) :
    ∀ (fuel : ℕ) (st st1 : ScanState),
      scanLoop fetch latestBlock fuel st = some st1 →
      latestBlock < st1.currentBlock ∨ st1.degradedMode = true := by
  intro fuel
  induction fuel with
  | zero =>
    intro st st1 h
    rw [scanLoop] at h
    cases hs : scanStep fetch latestBlock st with
    | stop s =>
      rw [hs] at h
      cases h
      exact scanStep_stop_cases fetch latestBlock st st1 hs
    | next s =>
      rw [hs] at h
      cases h
  | succ fuel ih =>
    intro st st1 h
    rw [scanLoop] at h
    cases hs : scanStep fetch latestBlock st with
    | stop s =>
      rw [hs] at h
      cases h
      exact scanStep_stop_cases fetch latestBlock st st1 hs
    | next s =>
      rw [hs] at h
      exact ih s st1 h

/-- Field-level characterization of `finalizeScan`: the two clearing
steps collapse to a single clear-at-full-coverage. -/
theorem finalizeScan_fields (fromBlock latestBlock : ℕ) (st : ScanState) :
    (finalizeScan fromBlock latestBlock st).requestedBlocks = latestBlock - fromBlock + 1 ∧
    (finalizeScan fromBlock latestBlock st).scannedBlocks =
      min st.currentBlock (latestBlock + 1) - fromBlock ∧
    (finalizeScan fromBlock latestBlock st).coveragePercent =
      min 100 (if 0 < latestBlock - fromBlock + 1 then
        jsRoundPct (min st.currentBlock (latestBlock + 1) - fromBlock)
          (latestBlock - fromBlock + 1) else 0) ∧
    (finalizeScan fromBlock latestBlock st).degradedMode =
      (if 100 ≤ min 100 (if 0 < latestBlock - fromBlock + 1 then
          jsRoundPct (min st.currentBlock (latestBlock + 1) - fromBlock)
            (latestBlock - fromBlock + 1) else 0) then false
        else st.degradedMode) ∧
    (finalizeScan fromBlock latestBlock st).rateLimited =
      (if 100 ≤ min 100 (if 0 < latestBlock - fromBlock + 1 then
          jsRoundPct (min st.currentBlock (latestBlock + 1) - fromBlock)
            (latestBlock - fromBlock + 1) else 0) then false
        else st.rateLimited) := by
  refine ⟨rfl, rfl, rfl, ?_, ?_⟩ <;>
    · simp only [finalizeScan]
      split_ifs <;> first | rfl | simp_all

/-- The coverage report computed from a final loop state: scanned never
exceeds requested, the coverage formula, and the exact
degraded ↔ (coverage < 100) correspondence. -/
theorem finalizeScan_spec (fromBlock latestBlock : ℕ) (st : ScanState)
    (hfrom : fromBlock ≤ latestBlock)
    (hstop : latestBlock < st.currentBlock ∨ st.degradedMode = true) :
    (finalizeScan fromBlock latestBlock st).scannedBlocks ≤
      (finalizeScan fromBlock latestBlock st).requestedBlocks ∧
    (finalizeScan fromBlock latestBlock st).coveragePercent =
      min 100 (jsRoundPct (finalizeScan fromBlock latestBlock st).scannedBlocks
        (finalizeScan fromBlock latestBlock st).requestedBlocks) ∧
    ((finalizeScan fromBlock latestBlock st).degradedMode = true ↔
      (finalizeScan fromBlock latestBlock st).coveragePercent < 100) ∧
    (100 ≤ (finalizeScan fromBlock latestBlock st).coveragePercent →
      (finalizeScan fromBlock latestBlock st).degradedMode = false ∧
      (finalizeScan fromBlock latestBlock st).rateLimited = false) := by
  obtain ⟨hreq, hscan, hcov, hdeg, hrate⟩ := finalizeScan_fields fromBlock latestBlock st
  have ht : 0 < latestBlock - fromBlock + 1 := by omega
  rw [if_pos ht] at hcov hdeg hrate
  have hmin := min_le_right st.currentBlock (latestBlock + 1)
  have hfull : latestBlock < st.currentBlock →
      min 100 (jsRoundPct (min st.currentBlock (latestBlock + 1) - fromBlock)
        (latestBlock - fromBlock + 1)) = 100 := by
    intro hgt
    rw [min_eq_right (show latestBlock + 1 ≤ st.currentBlock by omega),
      show latestBlock + 1 - fromBlock = latestBlock - fromBlock + 1 by omega,
      jsRoundPct_self _ ht]
    simp
  refine ⟨by rw [hscan, hreq]; omega, by rw [hcov, hscan, hreq], ?_, ?_⟩
  · rw [hdeg, hcov]
    rcases hstop with hgt | hd
    · rw [hfull hgt]
      simp
    · rw [hd]
      by_cases hc : 100 ≤ min 100 (jsRoundPct
          (min st.currentBlock (latestBlock + 1) - fromBlock) (latestBlock - fromBlock + 1))
      · rw [if_pos hc]
        simp only [Bool.false_eq_true, false_iff]
        omega
      · rw [if_neg hc]
        simp only [true_iff]
        omega
  · intro h100
    rw [hcov] at h100
    rw [hdeg, hrate, if_pos h100, if_pos h100]
    exact ⟨rfl, rfl⟩

/-- **C1.** For every completed scan: scanned blocks never exceed
requested blocks, coverage is `min(100, round(scanned / requested *
100))`, and `degradedMode` is true exactly when the coverage percent is
below 100 at completion; at full coverage both `degradedMode` and
`rateLimited` are reported false even if throttling or range limits were
hit mid-scan. -/
theorem dappScan_coverage_degraded_iff (fetch : ℕ → ℕ → FetchOutcome)
    (latestBlock scanDepth fuel : ℕ) (r : ScanReport)
    (h : scanDAppActivity fetch latestBlock scanDepth fuel = some r) :
    r.scannedBlocks ≤ r.requestedBlocks ∧
    r.coveragePercent = min 100 (jsRoundPct r.scannedBlocks r.requestedBlocks) ∧
    (r.degradedMode = true ↔ r.coveragePercent < 100) ∧
    (100 ≤ r.coveragePercent → r.degradedMode = false ∧ r.rateLimited = false) := by
  rw [scanDAppActivity] at h
  rcases Option.map_eq_some'.mp h with ⟨st1, hloop, hr⟩
  subst hr
  exact finalizeScan_spec (latestBlock - scanDepth) latestBlock st1 (by omega)
    (scanLoop_stop_cases fetch latestBlock fuel _ st1 hloop)

set_option maxRecDepth 4000 in
/-- Witness for `dappScan_coverage_degraded_iff`: an error-free provider
scanned over blocks 90-100 yields full coverage with no degradation. -/
theorem dappScan_coverage_degraded_iff_witness :
    (ScanReport.scannedBlocks ⟨0, 10, false, false, 100, 11, 11⟩ ≤
      ScanReport.requestedBlocks ⟨0, 10, false, false, 100, 11, 11⟩) ∧
    (ScanReport.coveragePercent ⟨0, 10, false, false, 100, 11, 11⟩ =
      min 100 (jsRoundPct (ScanReport.scannedBlocks ⟨0, 10, false, false, 100, 11, 11⟩)
        (ScanReport.requestedBlocks ⟨0, 10, false, false, 100, 11, 11⟩))) ∧
    (ScanReport.degradedMode ⟨0, 10, false, false, 100, 11, 11⟩ = true ↔
      ScanReport.coveragePercent ⟨0, 10, false, false, 100, 11, 11⟩ < 100) ∧
    (100 ≤ ScanReport.coveragePercent ⟨0, 10, false, false, 100, 11, 11⟩ →
      ScanReport.degradedMode ⟨0, 10, false, false, 100, 11, 11⟩ = false ∧
      ScanReport.rateLimited ⟨0, 10, false, false, 100, 11, 11⟩ = false) :=
  dappScan_coverage_degraded_iff (fun _ _ => FetchOutcome.success []) 100 10 20
    ⟨0, 10, false, false, 100, 11, 11⟩ (by decide)

/-- The configuration identity of a provider: its URL and priority,
which no pool operation ever changes. -/
def provKey (p : RPCProvider) : String × ℤ := (p.url, p.providerPriority)

/-- The configured providers of a chain are listed in ascending priority
order; this holds for every chain in the static `RPC_CONFIGS` table. -/
def prioAsc (ps : PoolState) : Prop :=
  ((availableProviders ps).map RPCProvider.providerPriority).Pairwise (· ≤ ·)

/-- Updating one provider in place preserves all configuration keys as
long as the update does. -/
theorem updateFirstByUrl_map_key (url : String) (f : RPCProvider → RPCProvider)
    (hf : ∀ p, provKey (f p) = provKey p) :
    ∀ ps : PoolState, (updateFirstByUrl url f ps).map provKey = ps.map provKey := by
  intro ps
  induction ps with
  | nil => rfl
  | cons p rest ih =>
    rw [updateFirstByUrl]
    by_cases hp : p.url = url
    · rw [if_pos hp]
      simp [hf p]
    · rw [if_neg hp]
      simp [ih]

/-- `reportProviderFailure` never changes URLs or priorities. -/
theorem reportProviderFailure_map_key (ps : PoolState) (url : String) (now : ℕ) :
    (reportProviderFailure ps url now).map provKey = ps.map provKey := by
  apply updateFirstByUrl_map_key
  intro p
  simp only [provKey]
  by_cases h : maxFailuresBeforeUnhealthy ≤ p.failureCount + 1 <;> simp [h]

/-- Mapping a URL-preserving function commutes with the configured
filter. -/
theorem availableProviders_map (g : RPCProvider → RPCProvider)
    (hg : ∀ p, (g p).url = p.url) (ps : PoolState) :
    availableProviders (ps.map g) = (availableProviders ps).map g := by
  rw [availableProviders, availableProviders, List.filter_map g ps]
  congr 1
  apply List.filter_congr
  intro x _
  simp [Function.comp, hg x]

/-- Equal configuration keys give equal configured-key lists. -/
theorem availableProviders_map_key {ps qs : PoolState}
    (h : ps.map provKey = qs.map provKey) :
    (availableProviders ps).map provKey = (availableProviders qs).map provKey := by
  induction ps generalizing qs with
  | nil =>
    cases qs with
    | nil => rfl
    | cons q qs => simp at h
  | cons p ps ih =>
    cases qs with
    | nil => simp at h
    | cons q qs =>
      simp only [List.map_cons, List.cons.injEq] at h
      obtain ⟨hk, ht⟩ := h
      have hurl : p.url = q.url := congrArg Prod.fst hk
      by_cases hu : p.url = ""
      · have hq : q.url = "" := by rw [← hurl]; exact hu
        have hps : availableProviders (p :: ps) = availableProviders ps := by
          simp [availableProviders, List.filter_cons, hu]
        have hqs : availableProviders (q :: qs) = availableProviders qs := by
          simp [availableProviders, List.filter_cons, hq]
        rw [hps, hqs]
        exact ih ht
      · have hq : ¬q.url = "" := by rw [← hurl]; exact hu
        have hps : availableProviders (p :: ps) = p :: availableProviders ps := by
          simp [availableProviders, List.filter_cons, hu]
        have hqs : availableProviders (q :: qs) = q :: availableProviders qs := by
          simp [availableProviders, List.filter_cons, hq]
        rw [hps, hqs, List.map_cons, List.map_cons, hk, ih ht]

/-- Equal configuration keys transfer the ascending-priority property. -/
theorem prioAsc_congr {ps qs : PoolState} (h : ps.map provKey = qs.map provKey)
    (ha : prioAsc ps) : prioAsc qs := by
  have h2 := availableProviders_map_key h
  rw [prioAsc] at ha ⊢
  have h3 : (availableProviders qs).map RPCProvider.providerPriority =
      (availableProviders ps).map RPCProvider.providerPriority := by
    calc (availableProviders qs).map RPCProvider.providerPriority
        = ((availableProviders qs).map provKey).map Prod.snd := by
          rw [List.map_map]; rfl
      _ = ((availableProviders ps).map provKey).map Prod.snd := by rw [h2]
      _ = (availableProviders ps).map RPCProvider.providerPriority := by
          rw [List.map_map]; rfl
  rw [h3]
  exact ha

/-- Equal configuration keys transfer non-emptiness of the configured
set. -/
theorem availableProviders_ne_nil_congr {ps qs : PoolState}
    (h : ps.map provKey = qs.map provKey)
    (hne : availableProviders ps ≠ []) : availableProviders qs ≠ [] := by
  intro hq
  apply hne
  have h2 := availableProviders_map_key h
  rw [hq] at h2
  simpa using h2

/-- The stable priority minimum is the seed or a list member. -/
theorem pickBestByPriority_mem (hs : List RPCProvider) :
    ∀ h0 : RPCProvider, pickBestByPriority h0 hs = h0 ∨ pickBestByPriority h0 hs ∈ hs := by
  induction hs with
  | nil => intro h0; exact Or.inl rfl
  | cons q qs ih =>
    intro h0
    have hstep : pickBestByPriority h0 (q :: qs) =
        pickBestByPriority (if q.providerPriority < h0.providerPriority then q else h0) qs :=
      rfl
    rw [hstep]
    rcases ih (if q.providerPriority < h0.providerPriority then q else h0) with h | h
    · rw [h]
      split_ifs with hlt
      · exact Or.inr (List.mem_cons_self q qs)
      · exact Or.inl rfl
    · exact Or.inr (List.mem_cons_of_mem q h)

/-- If the seed already has minimal priority, the stable minimum keeps
it (ties never replace the earlier provider). -/
theorem pickBestByPriority_head_min (hs : List RPCProvider) :
    ∀ h0 : RPCProvider, (∀ p ∈ hs, h0.providerPriority ≤ p.providerPriority) →
      pickBestByPriority h0 hs = h0 := by
  induction hs with
  | nil => intro h0 _; rfl
  | cons q qs ih =>
    intro h0 hmin
    have hstep : pickBestByPriority h0 (q :: qs) =
        pickBestByPriority (if q.providerPriority < h0.providerPriority then q else h0) qs :=
      rfl
    rw [hstep, if_neg (by
      have := hmin q (List.mem_cons_self q qs)
      omega)]
    exact ih h0 fun p hp => hmin p (List.mem_cons_of_mem q hp)

/-- `getBestProvider` never changes configuration keys. -/
theorem getBestProvider_map_key {ps ps1 : PoolState} {u : String}
    (h : getBestProvider ps = some (u, ps1)) : ps1.map provKey = ps.map provKey := by
  rw [getBestProvider] at h
  cases ha : availableProviders ps with
  | nil => rw [ha] at h; cases h
  | cons a0 rest =>
    rw [ha] at h
    cases hh : (a0 :: rest).filter (fun p => p.isHealthy) with
    | nil =>
      rw [hh] at h
      cases h
      rw [List.map_map]
      apply List.map_congr_left
      intro p _
      by_cases hp : p.url = "" <;> simp [provKey, hp]
    | cons h0 hsrest =>
      rw [hh] at h
      cases h
      rfl

/-- Re-selecting immediately after a selection returns the same URL and
leaves the pool unchanged, provided the configured priorities ascend. -/
theorem getBestProvider_idem {ps ps1 : PoolState} {u : String}
    (hasc : prioAsc ps) (h : getBestProvider ps = some (u, ps1)) :
    getBestProvider ps1 = some (u, ps1) := by
  rw [getBestProvider] at h
  cases ha : availableProviders ps with
  | nil => rw [ha] at h; cases h
  | cons a0 rest =>
    rw [ha] at h
    cases hh : (a0 :: rest).filter (fun p => p.isHealthy) with
    | cons h0 hsrest =>
      rw [hh] at h
      cases h
      rw [getBestProvider, ha, hh]
    | nil =>
      rw [hh] at h
      cases h
      -- reset path: every configured provider is reset to healthy
      have hreset : availableProviders (ps.map fun p =>
          if p.url ≠ "" then { p with isHealthy := true, failureCount := 0 } else p) =
          (a0 :: rest).map fun p =>
            { p with isHealthy := true, failureCount := 0 } := by
        rw [availableProviders_map _ (fun p => by split_ifs <;> rfl) ps, ha]
        apply List.map_congr_left
        intro p hp
        have hp2 : p.url ≠ "" := by
          have := List.of_mem_filter (ha ▸ hp : p ∈ availableProviders ps)
          simpa using this
        rw [if_pos hp2]
      rw [getBestProvider, hreset]
      simp only [List.map_cons]
      have hall : ((({ a0 with isHealthy := true, failureCount := 0 }) ::
          rest.map fun p => { p with isHealthy := true, failureCount := 0 }).filter
            (fun p => p.isHealthy)) =
          ({ a0 with isHealthy := true, failureCount := 0 }) ::
            rest.map fun p => { p with isHealthy := true, failureCount := 0 } := by
        apply List.filter_eq_self.mpr
        intro x hx
        rcases List.mem_cons.mp hx with hx | hx
        · rw [hx]
        · rcases List.mem_map.mp hx with ⟨y, _, hy⟩
          rw [← hy]
      rw [hall]
      have hmin : ∀ p ∈ rest.map fun p => { p with isHealthy := true, failureCount := 0 },
          ({ a0 with isHealthy := true, failureCount := 0 } : RPCProvider).providerPriority ≤
            p.providerPriority := by
        intro p hp
        rcases List.mem_map.mp hp with ⟨y, hy, hpy⟩
        rw [← hpy]
        show a0.providerPriority ≤ y.providerPriority
        have := hasc
        rw [prioAsc, ha] at this
        rcases List.pairwise_map.mp this with hpair
        exact List.rel_of_pairwise_cons hpair hy
      show some ((pickBestByPriority { a0 with isHealthy := true, failureCount := 0 }
          (rest.map fun p => { p with isHealthy := true, failureCount := 0 })).url,
          ps.map fun p =>
            if p.url ≠ "" then { p with isHealthy := true, failureCount := 0 } else p) =
        some (a0.url, ps.map fun p =>
          if p.url ≠ "" then { p with isHealthy := true, failureCount := 0 } else p)
      rw [pickBestByPriority_head_min _ _ hmin]

/-- Trace invariant of the retry loop: every failed attempt reports the
failure against the URL that the attempt itself used, and the backoff
slept after the `i`-th failure is `min(1000 * 2^(i+1), 5000)` ms, absent
after the final attempt. -/
theorem execGo_trace_spec (chainId : String) (op : ℕ → AttemptOutcome)
    (maxRetries now : ℕ) :
    ∀ (r ac : ℕ) (ps : PoolState) (lastE : Option String) (tr : List AttemptRecord),
      prioAsc ps →
      ∃ suffix,
        (execGo chainId op maxRetries now r ac ps lastE tr).2 = tr ++ suffix ∧
        ∀ j rec, suffix.get? j = some rec →
          rec.reportedUrl = rec.usedUrl ∧
          rec.backoffMs = (if ac + j + 1 < maxRetries then
            some (min (1000 * 2 ^ (ac + j + 1)) 5000) else none) := by
  intro r
  induction r with
  | zero =>
    intro ac ps lastE tr hasc
    refine ⟨[], by simp [execGo], ?_⟩
    intro j rec hj
    simp at hj
  | succ r ih =>
    intro ac ps lastE tr hasc
    rw [execGo]
    cases hb : getBestProvider ps with
    | none =>
      refine ⟨[], ?_, ?_⟩
      · simp
      · intro j rec hj
        simp at hj
    | some ups =>
      obtain ⟨u, ps1⟩ := ups
      cases hop : op ac with
      | ok latency =>
        refine ⟨[], ?_, ?_⟩
        · simp
        · intro j rec hj
          simp at hj
      | fail msg =>
        simp only [getBestProvider_idem hasc hb]
        have hkey1 : ps1.map provKey = ps.map provKey := getBestProvider_map_key hb
        have hkey2 := reportProviderFailure_map_key ps1 u now
        have hkey3 : (reportProviderFailure ps1 u now).map provKey = ps.map provKey := by
          rw [hkey2, hkey1]
        have hasc3 : prioAsc (reportProviderFailure ps1 u now) :=
          prioAsc_congr hkey3.symm hasc
        obtain ⟨suffix1, hsfx1, hprop1⟩ :=
          ih (ac + 1) (reportProviderFailure ps1 u now) (some msg)
            (tr ++ [⟨u, u, if ac + 1 < maxRetries then
              some (min (1000 * 2 ^ (ac + 1)) 5000) else none⟩]) hasc3
        refine ⟨⟨u, u, if ac + 1 < maxRetries then
          some (min (1000 * 2 ^ (ac + 1)) 5000) else none⟩ :: suffix1, ?_, ?_⟩
        · rw [hsfx1]
          simp
        · intro j rec hj
          cases j with
          | zero =>
            cases hj
            exact ⟨rfl, rfl⟩
          | succ j =>
            have := hprop1 j rec (by simpa using hj)
            refine ⟨this.1, ?_⟩
            rw [this.2]
            have he : ac + 1 + j + 1 = ac + (j + 1) + 1 := by omega
            rw [he]

/-- When every remaining attempt fails, the loop terminates with the
exhaustion error carrying the message of the last failure. -/
theorem execGo_exhaust (chainId : String) (op : ℕ → AttemptOutcome)
    (maxRetries now : ℕ) (msgs : ℕ → String) (hmr : 0 < maxRetries) :
    ∀ (r ac : ℕ) (ps : PoolState) (lastE : Option String) (tr : List AttemptRecord),
      ac + r = maxRetries → prioAsc ps → availableProviders ps ≠ [] →
      (∀ i, ac ≤ i → i < maxRetries → op i = AttemptOutcome.fail (msgs i)) →
      lastE = (if ac = 0 then none else some (msgs (ac - 1))) →
      (execGo chainId op maxRetries now r ac ps lastE tr).1 =
        Except.error ("RPC failover exhausted for " ++ chainId ++ ": " ++
          msgs (maxRetries - 1)) := by
  intro r
  induction r with
  | zero =>
    intro ac ps lastE tr hsum hasc hne hop hlast
    have hac : ac = maxRetries := by omega
    rw [execGo, hlast, if_neg (show ¬ac = 0 by omega)]
    simp [hac]
  | succ r ih =>
    intro ac ps lastE tr hsum hasc hne hop hlast
    rw [execGo]
    have hgb : ∃ u ps1, getBestProvider ps = some (u, ps1) := by
      rw [getBestProvider]
      cases ha : availableProviders ps with
      | nil => exact absurd ha hne
      | cons a0 rest =>
        cases hh : (a0 :: rest).filter (fun p => p.isHealthy) with
        | nil => exact ⟨_, _, rfl⟩
        | cons h0 hs => exact ⟨_, _, rfl⟩
    rcases hgb with ⟨u, ps1, hgb⟩
    simp only [hgb, hop ac (le_refl ac) (by omega), getBestProvider_idem hasc hgb]
    have hkey1 : ps1.map provKey = ps.map provKey := getBestProvider_map_key hgb
    have hkey3 : (reportProviderFailure ps1 u now).map provKey = ps.map provKey := by
      rw [reportProviderFailure_map_key, hkey1]
    exact ih (ac + 1) (reportProviderFailure ps1 u now) (some (msgs ac)) _
      (by omega) (prioAsc_congr hkey3.symm hasc)
      (availableProviders_ne_nil_congr hkey3.symm hne)
      (fun i hi1 hi2 => hop i (by omega) hi2)
      (by rw [if_neg (by omega)]; simp)

/-- **C6.** In `executeWithFailover`, every failed attempt reports the
failure against the provider used for that attempt, the wait between
attempts is `min(1000 * 2^attempt, 5000)` ms, and exhausting all
attempts raises a terminal error carrying the last underlying cause. -/
theorem failover_reports_and_exhausts (chainId : String) (op : ℕ → AttemptOutcome)
    (maxRetries now : ℕ) (ps : PoolState) (msgs : ℕ → String) (hasc : prioAsc ps) :
    (∀ rec ∈ (executeWithFailover chainId op maxRetries now ps).2,
      rec.reportedUrl = rec.usedUrl) ∧
    (∀ j rec, (executeWithFailover chainId op maxRetries now ps).2.get? j = some rec →
      rec.backoffMs = if j + 1 < maxRetries then
        some (min (1000 * 2 ^ (j + 1)) 5000) else none) ∧
    (0 < maxRetries → availableProviders ps ≠ [] →
      (∀ i, i < maxRetries → op i = AttemptOutcome.fail (msgs i)) →
      (executeWithFailover chainId op maxRetries now ps).1 =
        Except.error ("RPC failover exhausted for " ++ chainId ++ ": " ++
          msgs (maxRetries - 1))) := by
  obtain ⟨suffix, hsfx, hprop⟩ :=
    execGo_trace_spec chainId op maxRetries now maxRetries 0 ps none [] hasc
  rw [executeWithFailover]
  refine ⟨?_, ?_, ?_⟩
  · intro rec hrec
    rw [hsfx] at hrec
    simp only [List.nil_append] at hrec
    rcases List.mem_iff_get?.mp hrec with ⟨j, hj⟩
    exact (hprop j rec hj).1
  · intro j rec hj
    rw [hsfx] at hj
    simp only [List.nil_append] at hj
    have h2 := (hprop j rec hj).2
    simpa using h2
  · intro hmr hne hfail
    exact execGo_exhaust chainId op maxRetries now msgs hmr maxRetries 0 ps none []
      (by omega) hasc hne (fun i _ h2 => hfail i h2) (by simp)

/-- Witness for `failover_reports_and_exhausts`: a two-provider pool
whose operation fails on all three attempts ends with the exhaustion
error carrying the last cause, and every failure was reported against
the provider used for that attempt. -/
theorem failover_reports_and_exhausts_witness :
    ((executeWithFailover "ethereum" (fun _ => AttemptOutcome.fail "boom") 3 0
        [⟨"u1", "A", 1, true, 0, 0, 0⟩, ⟨"u2", "B", 2, true, 0, 0, 0⟩]).1 =
      Except.error ("RPC failover exhausted for " ++ "ethereum" ++ ": " ++ "boom")) ∧
    (∀ rec ∈ (executeWithFailover "ethereum" (fun _ => AttemptOutcome.fail "boom") 3 0
        [⟨"u1", "A", 1, true, 0, 0, 0⟩, ⟨"u2", "B", 2, true, 0, 0, 0⟩]).2,
      rec.reportedUrl = rec.usedUrl) :=
  ⟨(failover_reports_and_exhausts "ethereum" (fun _ => AttemptOutcome.fail "boom") 3 0
      [⟨"u1", "A", 1, true, 0, 0, 0⟩, ⟨"u2", "B", 2, true, 0, 0, 0⟩] (fun _ => "boom")
      (by rw [prioAsc]; decide)).2.2 (by norm_num) (by decide) (fun _ _ => rfl),
   (failover_reports_and_exhausts "ethereum" (fun _ => AttemptOutcome.fail "boom") 3 0
      [⟨"u1", "A", 1, true, 0, 0, 0⟩, ⟨"u2", "B", 2, true, 0, 0, 0⟩] (fun _ => "boom")
      (by rw [prioAsc]; decide)).1⟩

/-- With distinct URLs, two pool members sharing a URL are the same
provider. -/
theorem url_nodup_inj {ps : PoolState} (hnd : (ps.map RPCProvider.url).Nodup)
    {p q : RPCProvider} (hp : p ∈ ps) (hq : q ∈ ps) (h : p.url = q.url) : p = q :=
  List.inj_on_of_nodup_map hnd hp hq h

/-- Members of an in-place update are old members or the image of a
member carrying the target URL. -/
theorem updateFirstByUrl_mem_cases (url : String) (f : RPCProvider → RPCProvider) :
    ∀ (ps : PoolState) (q : RPCProvider), q ∈ updateFirstByUrl url f ps →
      q ∈ ps ∨ ∃ p0, p0 ∈ ps ∧ p0.url = url ∧ q = f p0 := by
  intro ps
  induction ps with
  | nil => intro q hq; cases hq
  | cons r rest ih =>
    intro q hq
    rw [updateFirstByUrl] at hq
    by_cases hr : r.url = url
    · rw [if_pos hr] at hq
      rcases List.mem_cons.mp hq with h | h
      · exact Or.inr ⟨r, List.mem_cons_self r rest, hr, h⟩
      · exact Or.inl (List.mem_cons_of_mem r h)
    · rw [if_neg hr] at hq
      rcases List.mem_cons.mp hq with h | h
      · exact Or.inl (h ▸ List.mem_cons_self r rest)
      · rcases ih q h with h2 | ⟨p0, h3, h4, h5⟩
        · exact Or.inl (List.mem_cons_of_mem r h2)
        · exact Or.inr ⟨p0, List.mem_cons_of_mem r h3, h4, h5⟩

/-- With distinct URLs, the member of the updated pool that carries the
target URL is exactly the updated provider. -/
theorem updateFirstByUrl_spec (f : RPCProvider → RPCProvider) :
    ∀ (ps : PoolState) (p : RPCProvider),
      (ps.map RPCProvider.url).Nodup → p ∈ ps →
      ∀ q ∈ updateFirstByUrl p.url f ps, q = f p ∨ (q ∈ ps ∧ q.url ≠ p.url) := by
  intro ps
  induction ps with
  | nil => intro p _ hp; cases hp
  | cons r rest ih =>
    intro p hnd hp q hq
    have hnd2 : (r.url :: rest.map RPCProvider.url).Nodup := by simpa using hnd
    rw [updateFirstByUrl] at hq
    by_cases hr : r.url = p.url
    · have hrp : r = p := by
        rcases List.mem_cons.mp hp with h | h
        · exact h.symm
        · exact absurd (by rw [hr]; exact List.mem_map_of_mem RPCProvider.url h)
            (List.nodup_cons.mp hnd2).1
      rw [if_pos hr] at hq
      rcases List.mem_cons.mp hq with h | h
      · exact Or.inl (by rw [h, hrp])
      · refine Or.inr ⟨List.mem_cons_of_mem r h, ?_⟩
        intro hqp
        exact (List.nodup_cons.mp hnd2).1
          (by rw [hr, ← hqp]; exact List.mem_map_of_mem RPCProvider.url h)
    · have hpr : p ∈ rest := by
        rcases List.mem_cons.mp hp with h | h
        · exact absurd (by rw [h]) hr
        · exact h
      rw [if_neg hr] at hq
      rcases List.mem_cons.mp hq with h | h
      · exact Or.inr ⟨h ▸ List.mem_cons_self r rest, by rw [h]; exact fun hh => hr hh⟩
      · rcases ih p (List.nodup_cons.mp hnd2).2 hpr q h with h2 | ⟨h3, h4⟩
        · exact Or.inl h2
        · exact Or.inr ⟨List.mem_cons_of_mem r h3, h4⟩

/-- **C7.** Provider pool circuit breaker: a provider reaching 3
consecutive failures flips unhealthy; while any other configured healthy
provider exists, selection never returns it and no failure or success
report heals it; the cooldown resets it to healthy with failureCount 0;
and when no configured provider is healthy, selection resets all of them
to healthy and returns the highest-priority one. -/
theorem providerPool_circuitBreaker :
    (∀ (ps : PoolState) (p : RPCProvider) (now : ℕ),
      (ps.map RPCProvider.url).Nodup → p ∈ ps → 2 ≤ p.failureCount →
      ∀ q ∈ reportProviderFailure ps p.url now, q.url = p.url →
        q.isHealthy = false ∧ q.failureCount = p.failureCount + 1) ∧
    (∀ (ps : PoolState) (p q : RPCProvider),
      (ps.map RPCProvider.url).Nodup → p ∈ ps → p.url ≠ "" → p.isHealthy = false →
      q ∈ ps → q.url ≠ "" → q.isHealthy = true →
      ∃ u, getBestProvider ps = some (u, ps) ∧ u ≠ p.url) ∧
    (∀ (ps : PoolState) (p : RPCProvider) (url : String) (now : ℕ) (rt : ℚ),
      (ps.map RPCProvider.url).Nodup → p ∈ ps → p.isHealthy = false →
      (∀ q ∈ reportProviderFailure ps url now, q.url = p.url → q.isHealthy = false) ∧
      (∀ q ∈ reportProviderSuccess ps url rt now, q.url = p.url → q.isHealthy = false)) ∧
    (∀ (ps : PoolState) (p : RPCProvider),
      (ps.map RPCProvider.url).Nodup → p ∈ ps →
      ∀ q ∈ cooldownElapse ps p.url, q.url = p.url →
        q.isHealthy = true ∧ q.failureCount = 0) ∧
    (∀ ps : PoolState, prioAsc ps → availableProviders ps ≠ [] →
      (∀ p ∈ ps, p.url ≠ "" → p.isHealthy = false) →
      ∃ u ps1, getBestProvider ps = some (u, ps1) ∧
        (∃ p0 ∈ ps, p0.url = u ∧
          ∀ q ∈ ps, q.url ≠ "" → p0.providerPriority ≤ q.providerPriority) ∧
        (∀ q ∈ ps1, q.url ≠ "" → q.isHealthy = true ∧ q.failureCount = 0)) := by
  refine ⟨?_, ?_, ?_, ?_, ?_⟩
  · -- (a) three consecutive failures flip the provider unhealthy
    intro ps p now hnd hp hfc q hq hqurl
    rcases updateFirstByUrl_spec _ ps p hnd hp q hq with h | ⟨_, hne2⟩
    · have hth : maxFailuresBeforeUnhealthy ≤ p.failureCount + 1 := by
        rw [maxFailuresBeforeUnhealthy]; omega
      rw [h]
      constructor <;> simp [hth]
    · exact absurd hqurl hne2
  · -- (b) an unhealthy provider is never selected while another healthy one exists
    intro ps p q hnd hp hpu hpun hq hqu hqh
    have hpav : p ∈ availableProviders ps :=
      List.mem_filter.mpr ⟨hp, by simpa using hpu⟩
    have hqav : q ∈ availableProviders ps :=
      List.mem_filter.mpr ⟨hq, by simpa using hqu⟩
    rw [getBestProvider]
    cases ha : availableProviders ps with
    | nil => rw [ha] at hpav; cases hpav
    | cons a0 rest =>
      have hqh2 : q ∈ (a0 :: rest).filter (fun p => p.isHealthy) := by
        rw [← ha]
        exact List.mem_filter.mpr ⟨hqav, by simpa using hqh⟩
      cases hh : (a0 :: rest).filter (fun p => p.isHealthy) with
      | nil => rw [hh] at hqh2; cases hqh2
      | cons h0 hs =>
        refine ⟨(pickBestByPriority h0 hs).url, rfl, ?_⟩
        have hmem : pickBestByPriority h0 hs ∈ h0 :: hs := by
          rcases pickBestByPriority_mem hs h0 with h | h
          · rw [h]; exact List.mem_cons_self h0 hs
          · exact List.mem_cons_of_mem h0 h
        rw [← hh] at hmem
        have hfil := List.mem_filter.mp hmem
        have hhealthy : (pickBestByPriority h0 hs).isHealthy = true := by
          simpa using hfil.2
        have hmem2 : pickBestByPriority h0 hs ∈ ps := by
          have hav : pickBestByPriority h0 hs ∈ availableProviders ps := ha ▸ hfil.1
          exact (List.mem_filter.mp hav).1
        intro heq
        have heq2 : pickBestByPriority h0 hs = p := url_nodup_inj hnd hmem2 hp heq
        rw [heq2, hpun] at hhealthy
        cases hhealthy
  · -- (c) no failure or success report ever heals an unhealthy provider
    intro ps p url now rt hnd hp hpun
    constructor
    · intro q hq hqurl
      rcases updateFirstByUrl_mem_cases url _ ps q hq with h | ⟨p0, hp0, hp0u, hq0⟩
      · have : q = p := url_nodup_inj hnd h hp hqurl
        rw [this, hpun]
      · have hq0url : q.url = p0.url := by
          rw [hq0]
          by_cases hth : maxFailuresBeforeUnhealthy ≤ p0.failureCount + 1 <;> simp [hth]
        have hp0p : p0 = p := url_nodup_inj hnd hp0 hp (by rw [← hq0url, hqurl])
        rw [hq0, hp0p]
        by_cases hth : maxFailuresBeforeUnhealthy ≤ p.failureCount + 1 <;>
          simp [hth, hpun]
    · intro q hq hqurl
      rcases updateFirstByUrl_mem_cases url _ ps q hq with h | ⟨p0, hp0, hp0u, hq0⟩
      · have : q = p := url_nodup_inj hnd h hp hqurl
        rw [this, hpun]
      · have hq0url : q.url = p0.url := by rw [hq0]
        have hp0p : p0 = p := url_nodup_inj hnd hp0 hp (by rw [← hq0url, hqurl])
        rw [hq0, hp0p]
        simpa using hpun
  · -- (d) the cooldown resets the provider to healthy with zero failures
    intro ps p hnd hp q hq hqurl
    rcases updateFirstByUrl_spec _ ps p hnd hp q hq with h | ⟨_, hne2⟩
    · rw [h]
      exact ⟨rfl, rfl⟩
    · exact absurd hqurl hne2
  · -- (e) pool-wide outage: reset all and return the highest priority
    intro ps hasc hne hall
    cases ha : availableProviders ps with
    | nil => exact absurd ha hne
    | cons a0 rest =>
      have hfil : (a0 :: rest).filter (fun p => p.isHealthy) = [] := by
        apply List.filter_eq_nil_iff.mpr
        intro x hx
        have hx2 : x ∈ availableProviders ps := ha ▸ hx
        have hx3 := List.mem_filter.mp hx2
        have hurl : x.url ≠ "" := by simpa using hx3.2
        simp [hall x hx3.1 hurl]
      have ha0 : a0 ∈ availableProviders ps := ha ▸ List.mem_cons_self a0 rest
      have ha0f := List.mem_filter.mp ha0
      refine ⟨a0.url,
        ps.map fun p =>
          if p.url ≠ "" then { p with isHealthy := true, failureCount := 0 } else p,
        ?_, ⟨a0, ha0f.1, rfl, ?_⟩, ?_⟩
      · rw [getBestProvider, ha, hfil]
      · intro qq hqq hqqurl
        have hqav : qq ∈ availableProviders ps :=
          List.mem_filter.mpr ⟨hqq, by simpa using hqqurl⟩
        rw [ha] at hqav
        rcases List.mem_cons.mp hqav with h | h
        · rw [h]
        · have hpasc := hasc
          rw [prioAsc, ha] at hpasc
          have hpair := List.pairwise_map.mp hpasc
          exact List.rel_of_pairwise_cons hpair h
      · intro qq hqq hqqurl
        rcases List.mem_map.mp hqq with ⟨y, _, hyq⟩
        by_cases hyu : y.url = ""
        · rw [← hyq] at hqqurl
          rw [if_neg (by simpa using hyu)] at hqqurl
          exact absurd hyu hqqurl
        · rw [← hyq, if_pos (by simpa using hyu)]
          exact ⟨rfl, rfl⟩

/-- Witness for `providerPool_circuitBreaker` on a two-provider pool:
the third failure flips provider `u1` unhealthy, selection then avoids
it, the cooldown heals it, and a pool-wide outage resets everyone and
returns the priority-1 provider. -/
theorem providerPool_circuitBreaker_witness :
    (∀ q ∈ reportProviderFailure
        [⟨"u1", "A", 1, true, 0, 2, 0⟩, ⟨"u2", "B", 2, true, 0, 0, 0⟩] "u1" 7,
      q.url = "u1" → q.isHealthy = false ∧ q.failureCount = 3) ∧
    (∃ u, getBestProvider
        [⟨"u1", "A", 1, false, 0, 3, 0⟩, ⟨"u2", "B", 2, true, 0, 0, 0⟩] =
        some (u, [⟨"u1", "A", 1, false, 0, 3, 0⟩, ⟨"u2", "B", 2, true, 0, 0, 0⟩]) ∧
      u ≠ "u1") ∧
    (∀ q ∈ cooldownElapse
        [⟨"u1", "A", 1, false, 0, 3, 0⟩, ⟨"u2", "B", 2, true, 0, 0, 0⟩] "u1",
      q.url = "u1" → q.isHealthy = true ∧ q.failureCount = 0) ∧
    (∃ u ps1, getBestProvider
        [⟨"u1", "A", 1, false, 0, 3, 0⟩, ⟨"u2", "B", 2, false, 0, 3, 0⟩] =
        some (u, ps1) ∧
      (∃ p0 ∈ ([⟨"u1", "A", 1, false, 0, 3, 0⟩, ⟨"u2", "B", 2, false, 0, 3, 0⟩] :
          PoolState), p0.url = u ∧
        ∀ q ∈ ([⟨"u1", "A", 1, false, 0, 3, 0⟩, ⟨"u2", "B", 2, false, 0, 3, 0⟩] :
          PoolState), q.url ≠ "" → p0.providerPriority ≤ q.providerPriority) ∧
      (∀ q ∈ ps1, q.url ≠ "" → q.isHealthy = true ∧ q.failureCount = 0)) :=
  ⟨providerPool_circuitBreaker.1
      [⟨"u1", "A", 1, true, 0, 2, 0⟩, ⟨"u2", "B", 2, true, 0, 0, 0⟩]
      ⟨"u1", "A", 1, true, 0, 2, 0⟩ 7 (by decide) (by decide) (by decide),
   providerPool_circuitBreaker.2.1
      [⟨"u1", "A", 1, false, 0, 3, 0⟩, ⟨"u2", "B", 2, true, 0, 0, 0⟩]
      ⟨"u1", "A", 1, false, 0, 3, 0⟩ ⟨"u2", "B", 2, true, 0, 0, 0⟩
      (by decide) (by decide) (by decide) (by decide) (by decide) (by decide) (by decide),
   providerPool_circuitBreaker.2.2.2.1
      [⟨"u1", "A", 1, false, 0, 3, 0⟩, ⟨"u2", "B", 2, true, 0, 0, 0⟩]
      ⟨"u1", "A", 1, false, 0, 3, 0⟩ (by decide) (by decide),
   providerPool_circuitBreaker.2.2.2.2
      [⟨"u1", "A", 1, false, 0, 3, 0⟩, ⟨"u2", "B", 2, false, 0, 3, 0⟩]
      (by rw [prioAsc]; decide) (by decide) (by decide)⟩
